import Mathlib

/-!
# Verification of the tinydb storage and catalog core

A shallow embedding of the storage and catalog core of the tinydb
repository (`src/storage/buffer.rs`, `src/access/heap.rs`,
`src/catalog/mod.rs`, `src/catalog/heap.rs`) together with theorems
settling the specification claims about it.

Pure functions of the source become Lean functions; the stateful buffer
pool becomes explicit state passing: every operation takes a `BufferPool`
and returns its result together with the successor pool.  Rust `Result`
becomes `Except DbError`; a Rust panic (a process abort, as opposed to a
recoverable `Err`) is modelled by the distinguished error constructor
`DbError.Panic`, which no caller treats as recoverable.

Modules of the repository that are not present under `src/` (`lru.rs`,
`storage/page.rs` alias `bufpage.rs`, `storage/smgr.rs`,
`storage/freespace.rs`, `access/heaptuple.rs`, the catalog row types) are
modelled from the specification; each such definition carries a doc
comment starting with `Modelled from the spec:`.
-/

namespace Tinydb

/-- Equality of `Except` results is decidable when both components'
equality is; used to evaluate claims on concrete inputs. -/
instance instDecEqExcept {ε α : Type} [DecidableEq ε] [DecidableEq α] :
    DecidableEq (Except ε α) := fun a b =>
  match a, b with
  | .ok x, .ok y =>
    if h : x = y then .isTrue (by rw [h]) else .isFalse (by simp [h])
  | .error x, .error y =>
    if h : x = y then .isTrue (by rw [h]) else .isFalse (by simp [h])
  | .ok _, .error _ => .isFalse (by simp)
  | .error _, .ok _ => .isFalse (by simp)

/-- `PAGE_SIZE` from the source (spec §4.2). -/
def PAGE_SIZE : Nat := 8192

/-- `PAGE_HEADER_SIZE` from the source (spec §4.2). -/
def PAGE_HEADER_SIZE : Nat := 6

/-- `ITEM_ID_SIZE` from the source (spec §4.2). -/
def ITEM_ID_SIZE : Nat := 4

/-- A page is a fixed-size byte block; modelled as a function from byte
offset to byte value.  Only offsets `< PAGE_SIZE` are meaningful. -/
def Page : Type := Nat → Nat

/-- The all-zeroes page, as produced by `StorageManager::extend`. -/
def zeroPage : Page := fun _ => 0

/-- Read the little-endian `u16` stored at byte offset `off` of a page. -/
def readU16LE (p : Page) (off : Nat) : Nat :=
  p off + 256 * p (off + 1)

/-- Write a `u16` value little-endian at byte offset `off` of a page. -/
def writeU16LE (p : Page) (off v : Nat) : Page :=
  fun i =>
    if i = off then v % 256
    else if i = off + 1 then v / 256 % 256
    else p i

/-- Write a byte sequence at offset `off` of a page. -/
def writeBytes (p : Page) (off : Nat) (bs : List Nat) : Page :=
  fun i =>
    if off ≤ i ∧ i < off + bs.length then bs.getD (i - off) 0
    else p i

/-- The bytes of a page in the half-open offset range `[start, stop)`. -/
def sliceToList (p : Page) (start stop : Nat) : List Nat :=
  (List.range (stop - start)).map (fun k => p (start + k))

/-- The error taxonomy of the engine (spec §7), plus `Panic`, which
models a Rust panic: a process abort rather than a recoverable `Err`. -/
inductive DbError : Type where
  | RelationNotFound : String → DbError
  | NoRoomOnPage : DbError
  | NoFreeBuffer : DbError
  | PageCorruption : String → DbError
  | ShortRead : DbError
  | ShortWrite : DbError
  | CodecError : String → DbError
  | Panic : String → DbError
  | Other : String → DbError
deriving DecidableEq

/-- Object identifier (32-bit unsigned in the source). -/
abbrev Oid := Nat

/-- `RelationLocator` (spec §3): identifies the physical file of a
relation. -/
structure RelationLocator where
  tablespace : Oid
  database : Oid
  oid : Oid
deriving DecidableEq

/-- `RelationData` from `relation.rs` (shared by reference in the source;
modelled by value because nothing in scope mutates it). -/
structure RelationData where
  locator : RelationLocator
  rel_name : String
deriving DecidableEq

/-- `ItemId` (spec §3): a slot pointer `{offset, length}` into the tuple
heap of a page.  Defined in the missing `storage/page.rs`. -/
structure ItemId where
  offset : Nat
  length : Nat
deriving DecidableEq

/-- Modelled from the spec: `storage/page.rs` is missing from `src/`.
Serialization of an `ItemId` as done by the source's `bincode::serialize`
default configuration: two `u16` fields, fixed width, little-endian
(spec §6: "Header integers and item id fields are little-endian"). -/
def serializeItemId (it : ItemId) : List Nat :=
  [it.offset % 256, it.offset / 256 % 256, it.length % 256, it.length / 256 % 256]

/-- Modelled from the spec: inverse of `serializeItemId`, as done by the
source's `bincode::deserialize::<ItemId>` on a 4-byte buffer
(`HeapScanner::next_tuple`, heap.rs:109).  Fewer than 4 bytes is a
decode failure. -/
def deserializeItemId (bs : List Nat) : Except DbError ItemId :=
  match bs with
  | [a, b, c, d] => .ok ⟨a + 256 * b, c + 256 * d⟩
  | _ => .error (.CodecError "invalid item id")

/-- Refinement comparison only: reading the same two `u16` fields
big-endian, following the words of spec §4.2 ("big-endian header fields
for portability").  Not part of the source. -/
def deserializeItemIdBigEndian (bs : List Nat) : Except DbError ItemId :=
  match bs with
  | [a, b, c, d] => .ok ⟨256 * a + b, 256 * c + d⟩
  | _ => .error (.CodecError "invalid item id")

/-- `PageHeader` (spec §3): the three `u16` fields at byte 0 of a page.
Defined in the missing `storage/bufpage.rs`. -/
structure PageHeader where
  start_free_space : Nat
  end_free_space : Nat
  flags : Nat
deriving DecidableEq

/-- The default page header of a freshly initialized page
(spec §4.2): `start_free_space = PAGE_HEADER_SIZE`,
`end_free_space = PAGE_SIZE`. -/
def PageHeader.default : PageHeader :=
  ⟨PAGE_HEADER_SIZE, PAGE_SIZE, 0⟩

/-- Modelled from the spec: `PageHeader::new(&page)` of the missing
`storage/bufpage.rs` parses the three little-endian `u16` header fields
and enforces the §3 invariant `PAGE_HEADER_SIZE ≤ start_free_space ≤
end_free_space ≤ PAGE_SIZE` (violations are `PageCorruption`, §7). -/
def PageHeader.decode (p : Page) : Except DbError PageHeader :=
  let s := readU16LE p 0
  let e := readU16LE p 2
  let f := readU16LE p 4
  if PAGE_HEADER_SIZE ≤ s ∧ s ≤ e ∧ e ≤ PAGE_SIZE then .ok ⟨s, e, f⟩
  else .error (.PageCorruption "header out of range")

/-- Serialize a page header into the first 6 bytes of a page. -/
def writePageHeader (p : Page) (h : PageHeader) : Page :=
  writeU16LE (writeU16LE (writeU16LE p 0 h.start_free_space) 2 h.end_free_space) 4 h.flags

/-- A page holding only a default header, as written by
`initialize_default_page_header` (catalog/heap.rs:106). -/
def freshPage : Page := writePageHeader zeroPage PageHeader.default

/-- Modelled from the spec: `page_add_item` of the missing
`storage/page.rs`, following the six steps of §4.1: parse the header,
require `end_free_space − start_free_space ≥ L + ITEM_ID_SIZE` (else
`NoRoomOnPage`), write the tuple bytes at `end_free_space − L`, write the
item id at `start_free_space`, and rewrite the header.  The check
precedes every write, so a failing call leaves the page unchanged
(spec §5). -/
def page_add_item (p : Page) (tup : List Nat) : Except DbError Page :=
  match PageHeader.decode p with
  | .error e => .error e
  | .ok h =>
    let L := tup.length
    if L + ITEM_ID_SIZE ≤ h.end_free_space - h.start_free_space then
      let off := h.end_free_space - L
      let p1 := writeBytes p off tup
      let p2 := writeBytes p1 h.start_free_space (serializeItemId ⟨off, L⟩)
      .ok (writePageHeader p2 ⟨h.start_free_space + ITEM_ID_SIZE, off, h.flags⟩)
    else .error .NoRoomOnPage

/-- `HeapTuple` (spec §3): a header carrying the null bitmap, plus the
concatenated encoded attribute values.  Defined in the missing
`access/heaptuple.rs`. -/
structure HeapTuple where
  null_bitmap : List Nat
  data : List Nat
deriving DecidableEq

/-- Modelled from the spec: `HeapTuple::encode` of the missing
`access/heaptuple.rs` serializes `{header{null_bitmap}, data}` with a
length-prefixed framing (§4.1; the framing is an implementation-free
choice provided decode is the exact inverse): one length byte for the
null bitmap, then the bitmap bytes, then the data bytes. -/
def HeapTuple.encode (t : HeapTuple) : List Nat :=
  t.null_bitmap.length :: (t.null_bitmap ++ t.data)

/-- Modelled from the spec: `HeapTuple::decode`, the exact inverse of
`HeapTuple.encode`; malformed inputs fail with `CodecError` (§7). -/
def HeapTuple.decode (bs : List Nat) : Except DbError HeapTuple :=
  match bs with
  | [] => .error (.CodecError "empty tuple")
  | n :: rest =>
    if n ≤ rest.length then .ok ⟨rest.take n, rest.drop n⟩
    else .error (.CodecError "truncated null bitmap")

/-- Modelled from the spec: the storage manager state of the missing
`storage/smgr.rs` (§4.5).  `files` maps a relation locator to the pages
of its file, in page order; a file that does not exist is the empty
list. -/
structure StorageManager where
  files : RelationLocator → List Page

/-- Modelled from the spec: `StorageManager::read` (§4.5) returns page
`page_num` (1-based) of the relation's file, failing with `ShortRead`
when fewer than `PAGE_SIZE` bytes are available at that offset. -/
def StorageManager.read (s : StorageManager) (rel : RelationData) (page_num : Nat) :
    Except DbError Page :=
  match (s.files rel.locator).get? (page_num - 1) with
  | some p => if page_num = 0 then .error .ShortRead else .ok p
  | none => .error .ShortRead

/-- Modelled from the spec: `StorageManager::write` (§4.5) overwrites
page `page_num` of the relation's file; a write that cannot transfer a
full page (the page is beyond the file) fails with `ShortWrite`. -/
def StorageManager.write (s : StorageManager) (rel : RelationData) (page_num : Nat)
    (p : Page) : Except DbError StorageManager :=
  if 1 ≤ page_num ∧ page_num ≤ (s.files rel.locator).length then
    .ok ⟨fun loc =>
      if loc = rel.locator then (s.files rel.locator).set (page_num - 1) p
      else s.files loc⟩
  else .error .ShortWrite

/-- Modelled from the spec: `StorageManager::extend` (§4.5) appends one
zeroed page and returns the new 1-based page number. -/
def StorageManager.extend (s : StorageManager) (rel : RelationData) :
    Nat × StorageManager :=
  ((s.files rel.locator).length + 1,
   ⟨fun loc =>
     if loc = rel.locator then s.files rel.locator ++ [zeroPage]
     else s.files loc⟩)

/-- Modelled from the spec: `StorageManager::size` (§4.5): the number of
pages of the relation's file (zero if it does not exist). -/
def StorageManager.size (s : StorageManager) (rel : RelationData) : Nat :=
  (s.files rel.locator).length

/-- Buffer identifier (`pub type Buffer = usize`, buffer.rs:18); zero is
invalid, frames are numbered from 1. -/
abbrev Buffer := Nat

/-- `BufferTag` (buffer.rs:22): identifies which disk block a frame
holds. -/
structure BufferTag where
  tablespace : Oid
  db : Oid
  relation : Oid
  page_number : Nat
deriving DecidableEq

/-- `BufferTag::new` (buffer.rs:30). -/
def BufferTag.new (page_number : Nat) (rel : RelationData) : BufferTag :=
  ⟨rel.locator.tablespace, rel.locator.database, rel.locator.oid, page_number⟩

/-- `BufferTag::default` (buffer.rs:42): all-invalid tag. -/
def BufferTag.invalid : BufferTag := ⟨0, 0, 0, 0⟩

/-- `BufferDesc` (buffer.rs:53): per-frame descriptor. -/
structure BufferDesc where
  id : Buffer
  tag : BufferTag
  refcount : Nat
  is_dirty : Bool
  rel : Option RelationData
  page : Page

/-- `BufferDesc::new` (buffer.rs:74). -/
def BufferDesc.new (id : Buffer) (tag : BufferTag) : BufferDesc :=
  ⟨id, tag, 0, false, none, fun _ => 0⟩

/-- Remove every occurrence of a frame id from the LRU order.  Modelled
from the spec: `LRU::pin` of the missing `lru.rs` removes the id from the
ordered sequence of unpinned frames (§4.3: "Pinning removes from
`lru`"). -/
def lruRemove : List Buffer → Buffer → List Buffer
  | [], _ => []
  | x :: xs, b => if x = b then lruRemove xs b else x :: lruRemove xs b

/-- Association-list lookup for the page table (`HashMap<BufferTag,
Buffer>` in buffer.rs:106). -/
def ptLookup : List (BufferTag × Buffer) → BufferTag → Option Buffer
  | [], _ => none
  | (t, b) :: rest, tag => if t = tag then some b else ptLookup rest tag

/-- Association-list removal for the page table. -/
def ptRemove : List (BufferTag × Buffer) → BufferTag → List (BufferTag × Buffer)
  | [], _ => []
  | (t, b) :: rest, tag =>
    if t = tag then ptRemove rest tag else (t, b) :: ptRemove rest tag

/-- Association-list insertion for the page table (`HashMap::insert`
replaces an existing binding of the same tag). -/
def ptInsert (pt : List (BufferTag × Buffer)) (tag : BufferTag) (b : Buffer) :
    List (BufferTag × Buffer) :=
  (tag, b) :: ptRemove pt tag

/-- `BufferPool` (buffer.rs:93): bounded page cache.  The `lru` field is
the ordered sequence of unpinned frame ids, oldest first (spec §4.3);
the missing `lru.rs` is modelled from the spec through the `lruRemove`
and append operations used below. -/
structure BufferPool where
  smgr : StorageManager
  lru : List Buffer
  pages : List BufferDesc
  free_list : List Buffer
  page_table : List (BufferTag × Buffer)

/-- `BufferPool::new` (buffer.rs:111): frame ids `1..=size` are pushed
onto the free list in order (so `Vec::pop` hands them out highest
first), and every descriptor starts with the default tag. -/
def BufferPool.new (size : Nat) (smgr : StorageManager) : BufferPool :=
  { smgr := smgr
    lru := []
    pages := (List.range size).map (fun i => BufferDesc.new (i + 1) BufferTag.invalid)
    free_list := (List.range size).map (· + 1)
    page_table := [] }

/-- `BufferPool::get_buffer_descriptor` (buffer.rs:266): the source
indexes `self.pages[buffer - 1]` with `unwrap()`, so an invalid id
(zero, whose `usize` decrement underflows, or one past the pool) is a
panic, not a recoverable error. -/
def get_buffer_descriptor (pool : BufferPool) (b : Buffer) : Except DbError BufferDesc :=
  if b = 0 then .error (.Panic "attempt to subtract with overflow")
  else
    match pool.pages.get? (b - 1) with
    | some d => .ok d
    | none => .error (.Panic "index out of range")

/-- Replace the descriptor of frame `b`; models mutation through the
source's `Rc<RefCell<BufferDesc>>`. -/
def set_buffer_descriptor (pool : BufferPool) (b : Buffer) (d : BufferDesc) : BufferPool :=
  { pool with pages := pool.pages.set (b - 1) d }

/-- `BufferPool::pin_buffer` (buffer.rs:271): increment the descriptor's
refcount and remove the descriptor's `id` from the LRU (the source
passes `&buffer.id` to `LRU::pin`). -/
def pin_buffer (pool : BufferPool) (b : Buffer) : BufferPool :=
  match pool.pages.get? (b - 1) with
  | none => pool
  | some desc =>
    { pool with
      pages := pool.pages.set (b - 1) { desc with refcount := desc.refcount + 1 }
      lru := lruRemove pool.lru desc.id }

/-- `BufferPool::get_page` (buffer.rs:209): the frame's page contents.
The source hands out a shared `Rc` handle; mutations through that
handle are modelled by `set_page` below. -/
def get_page (pool : BufferPool) (b : Buffer) : Except DbError Page :=
  match get_buffer_descriptor pool b with
  | .error e => .error e
  | .ok desc => .ok desc.page

/-- Write back a page into frame `b`; models a mutation performed
through the shared `BufferPage` handle returned by `get_page`. -/
def set_page (pool : BufferPool) (b : Buffer) (p : Page) : BufferPool :=
  match pool.pages.get? (b - 1) with
  | none => pool
  | some desc => { pool with pages := pool.pages.set (b - 1) { desc with page := p } }

/-- `BufferPool::flush_buffer` (buffer.rs:189): write the frame's bytes
via the storage manager at `(rel, tag.page_number)`.  The descriptor —
including `is_dirty` and `refcount` — is not modified; a missing
relation binding is the source's `bail!` (a recoverable error). -/
def flush_buffer (pool : BufferPool) (b : Buffer) :
    (Except DbError Unit) × BufferPool :=
  match get_buffer_descriptor pool b with
  | .error e => (.error e, pool)
  | .ok desc =>
    match desc.rel with
    | none => (.error (.Other "buffer descriptor don't have a relation"), pool)
    | some rel =>
      match pool.smgr.write rel desc.tag.page_number desc.page with
      | .error e => (.error e, pool)
      | .ok smgr' => (.ok (), { pool with smgr := smgr' })

/-- `BufferPool::victim` (buffer.rs:243): take the oldest id from the
LRU — the source calls `.expect(...)` on the `Option`, so an empty LRU
is a panic, not a `NoFreeBuffer` error — flush the frame first if it is
dirty, then drop its tag from the page table. -/
def victim (pool : BufferPool) : (Except DbError Buffer) × BufferPool :=
  match pool.lru with
  | [] => (.error (.Panic "replacer does not contain any page id to victim"), pool)
  | b :: rest =>
    let pool1 : BufferPool := { pool with lru := rest }
    match get_buffer_descriptor pool1 b with
    | .error e => (.error e, pool1)
    | .ok desc =>
      match (if desc.is_dirty then flush_buffer pool1 b else (.ok (), pool1)) with
      | (.error e, p2) => (.error e, p2)
      | (.ok _, p2) =>
        (.ok b, { p2 with page_table := ptRemove p2.page_table desc.tag })

/-- `BufferPool::new_free_buffer` (buffer.rs:229): pop a frame id from
the free list (`Vec::pop` takes the last element), or fall back to
victim selection. -/
def new_free_buffer (pool : BufferPool) : (Except DbError Buffer) × BufferPool :=
  match pool.free_list.getLast? with
  | some b => (.ok b, { pool with free_list := pool.free_list.dropLast })
  | none => victim pool

/-- `BufferPool::fetch_buffer` (buffer.rs:135): on a page-table hit, pin
and return the frame.  Otherwise obtain a frame (free list or victim),
rebind its tag, refcount, dirty flag, relation and zeroed bytes, read
the page from storage, insert into the page table, pin, and return.  As
in the source, a failing storage read propagates after the rebind and
before the page-table insert and pin. -/
def fetch_buffer (pool : BufferPool) (rel : RelationData) (page_num : Nat) :
    (Except DbError Buffer) × BufferPool :=
  let tag := BufferTag.new page_num rel
  match ptLookup pool.page_table tag with
  | some b =>
    match get_buffer_descriptor pool b with
    | .error e => (.error e, pool)
    | .ok desc => (.ok desc.id, pin_buffer pool b)
  | none =>
    match new_free_buffer pool with
    | (.error e, p1) => (.error e, p1)
    | (.ok b, p1) =>
      match get_buffer_descriptor p1 b with
      | .error e => (.error e, p1)
      | .ok desc =>
        let desc1 : BufferDesc :=
          { desc with tag := tag, refcount := 0, is_dirty := false,
                      rel := some rel, page := zeroPage }
        let p2 := set_buffer_descriptor p1 b desc1
        match p2.smgr.read rel page_num with
        | .error e => (.error e, p2)
        | .ok pg =>
          let p3 := set_buffer_descriptor p2 b { desc1 with page := pg }
          let p4 : BufferPool :=
            { p3 with page_table := ptInsert p3.page_table tag b }
          (.ok b, pin_buffer p4 b)

/-- `BufferPool::unpin_buffer` (buffer.rs:280): OR `is_dirty` into the
flag, decrement the refcount — an unsigned decrement, so a zero
refcount panics on underflow rather than returning an error — and push
the id onto the MRU end of the LRU when the refcount reaches zero
(`LRU::unpin`, modelled from spec §4.3). -/
def unpin_buffer (pool : BufferPool) (b : Buffer) (is_dirty : Bool) :
    (Except DbError Unit) × BufferPool :=
  match get_buffer_descriptor pool b with
  | .error e => (.error e, pool)
  | .ok desc =>
    match desc.refcount with
    | 0 => (.error (.Panic "attempt to subtract with overflow"), pool)
    | r + 1 =>
      let desc' : BufferDesc :=
        { desc with is_dirty := desc.is_dirty || is_dirty, refcount := r }
      let pool1 := set_buffer_descriptor pool b desc'
      if r = 0 then (.ok (), { pool1 with lru := pool1.lru ++ [b] })
      else (.ok (), pool1)

/-- `BufferPool::alloc_buffer` (buffer.rs:219): extend the relation by
one zeroed page, then fetch it. -/
def alloc_buffer (pool : BufferPool) (rel : RelationData) :
    (Except DbError Buffer) × BufferPool :=
  let (page_num, smgr') := pool.smgr.extend rel
  fetch_buffer { pool with smgr := smgr' } rel page_num

/-- Modelled from the spec: the page loop of
`freespace::get_page_with_free_space` (`storage/freespace.rs` is missing
from `src/`; §4.6): linear scan from page `i` to `size`, fetching each
page and returning the first whose header shows free space of at least
`needed + ITEM_ID_SIZE`; a rejected page is unpinned before moving on.
If no page qualifies, `alloc_buffer` extends the relation, and the fresh
page receives the default header of §4.2 (`start_free_space =
PAGE_HEADER_SIZE`, `end_free_space = PAGE_SIZE`).  `remaining` counts
the pages not yet inspected, so the loop starts at page `i` with
`remaining = size − i + 1` and extends once it reaches zero. -/
def get_page_with_free_space_loop (rel : RelationData) (needed : Nat) :
    Nat → Nat → BufferPool → (Except DbError Buffer) × BufferPool
  | _, 0, pool =>
    match alloc_buffer pool rel with
    | (.error e, p) => (.error e, p)
    | (.ok b, p) =>
      match get_page p b with
      | .error e => (.error e, p)
      | .ok pg => (.ok b, set_page p b (writePageHeader pg PageHeader.default))
  | i, remaining + 1, pool =>
    match fetch_buffer pool rel i with
    | (.error e, p) => (.error e, p)
    | (.ok b, p) =>
      match get_page p b with
      | .error e => (.error e, p)
      | .ok pg =>
        match PageHeader.decode pg with
        | .error e => (.error e, p)
        | .ok h =>
          if needed + ITEM_ID_SIZE ≤ h.end_free_space - h.start_free_space then
            (.ok b, p)
          else
            match unpin_buffer p b false with
            | (.error e, p2) => (.error e, p2)
            | (.ok _, p2) => get_page_with_free_space_loop rel needed (i + 1) remaining p2

/-- Modelled from the spec: `freespace::get_page_with_free_space`
(§4.6), scanning pages `1..size(rel)` and extending if none has
room. -/
def get_page_with_free_space (pool : BufferPool) (rel : RelationData) (needed : Nat) :
    (Except DbError Buffer) × BufferPool :=
  get_page_with_free_space_loop rel needed 1 (pool.smgr.size rel) pool

/-- `heap_insert` (access/heap.rs:17): obtain a pinned page with room
(the spec's free-space policy receives the encoded length), add the
encoded tuple to it through the shared page handle, and unpin dirty.
As in the source, an error from `page_add_item` propagates through `?`
without reaching the `unpin_buffer` call. -/
def heap_insert (pool : BufferPool) (rel : RelationData) (tuple : HeapTuple) :
    (Except DbError Unit) × BufferPool :=
  match get_page_with_free_space pool rel tuple.encode.length with
  | (.error e, p) => (.error e, p)
  | (.ok b, p1) =>
    match get_page p1 b with
    | .error e => (.error e, p1)
    | .ok page =>
      match page_add_item page tuple.encode with
      | .error e => (.error e, p1)
      | .ok page' =>
        let p2 := set_page p1 b page'
        match unpin_buffer p2 b true with
        | (.error e, p3) => (.error e, p3)
        | (.ok _, p3) => (.ok (), p3)

/-- `HeapScanner` (access/heap.rs:40).  The source's
`item_id_data_cursor : Cursor<Vec<u8>>` is modelled by the list of
bytes of the item-id region not yet consumed; `buffer` is the pinned
frame, `none` when there is nothing left to scan. -/
structure HeapScanner where
  item_id_data_cursor : List Nat
  buffer : Option Buffer
deriving DecidableEq

/-- `HeapScanner::new` (access/heap.rs:73): fetch page 1 of the relation
— and only page 1; the source's `TODO: Iterate over all pages on
relation` never advances past it — parse its header, and snapshot the
item-id region `[PAGE_HEADER_SIZE, start_free_space)` into the
cursor. -/
def HeapScanner.new (pool : BufferPool) (rel : RelationData) :
    (Except DbError HeapScanner) × BufferPool :=
  match fetch_buffer pool rel 1 with
  | (.error e, p) => (.error e, p)
  | (.ok b, p) =>
    match get_page p b with
    | .error e => (.error e, p)
    | .ok page =>
      match PageHeader.decode page with
      | .error e => (.error e, p)
      | .ok h =>
        (.ok ⟨sliceToList page PAGE_HEADER_SIZE h.start_free_space, some b⟩, p)

/-- `HeapScanner::next_tuple` (access/heap.rs:93): read the next
`ITEM_ID_SIZE` bytes from the cursor; a zero-length read means the page
is exhausted, so unpin the buffer and yield `none` (the source keeps
`buffer` set and never advances to another page — its second `TODO`).
Otherwise deserialize the item id — the read lands in a zero-initialized
4-byte scratch buffer, so fewer than 4 remaining cursor bytes are
zero-padded — slice the tuple bytes out of the page (a slice beyond
`PAGE_SIZE` is a Rust index panic), and decode them.  As in the source,
the cursor advance happens at the read, and decode errors propagate
through `?` without unpinning. -/
def next_tuple (pool : BufferPool) (sc : HeapScanner) :
    (Except DbError (Option HeapTuple)) × BufferPool × HeapScanner :=
  match sc.buffer with
  | none => (.ok none, pool, sc)
  | some b =>
    match sc.item_id_data_cursor with
    | [] =>
      match unpin_buffer pool b false with
      | (.error e, p) => (.error e, p, sc)
      | (.ok _, p) => (.ok none, p, sc)
    | chunk0 =>
      let chunk := chunk0.take ITEM_ID_SIZE
        ++ List.replicate (ITEM_ID_SIZE - (chunk0.take ITEM_ID_SIZE).length) 0
      let sc1 : HeapScanner := { sc with item_id_data_cursor := chunk0.drop ITEM_ID_SIZE }
      match get_page pool b with
      | .error e => (.error e, pool, sc1)
      | .ok page =>
        match deserializeItemId chunk with
        | .error e => (.error e, pool, sc1)
        | .ok item =>
          if item.offset + item.length ≤ PAGE_SIZE then
            match HeapTuple.decode (sliceToList page item.offset (item.offset + item.length)) with
            | .error e => (.error e, pool, sc1)
            | .ok t => (.ok (some t), pool, sc1)
          else (.error (.Panic "slice index out of range"), pool, sc1)

/-- The `for tuple in heap` loop of `heap_scan` (access/heap.rs:31),
driven by `next_tuple` until it yields `none` or an error.  `fuel`
bounds the iteration count; each successful yield consumes at least one
cursor byte, so `heap_scan` supplies enough fuel for the loop never to
run out. -/
def heap_scan_loop (pool : BufferPool) (sc : HeapScanner) (fuel : Nat) :
    (Except DbError (List HeapTuple)) × BufferPool :=
  match fuel with
  | 0 => (.error (.Other "out of fuel"), pool)
  | fuel' + 1 =>
    match next_tuple pool sc with
    | (.error e, p, _) => (.error e, p)
    | (.ok none, p, _) => (.ok [], p)
    | (.ok (some t), p, sc') =>
      match heap_scan_loop p sc' fuel' with
      | (.error e, p') => (.error e, p')
      | (.ok ts, p') => (.ok (t :: ts), p')

/-- `heap_scan` (access/heap.rs:28): create a `HeapScanner` and collect
every tuple it yields, stopping at the first error. -/
def heap_scan (pool : BufferPool) (rel : RelationData) :
    (Except DbError (List HeapTuple)) × BufferPool :=
  match HeapScanner.new pool rel with
  | (.error e, p) => (.error e, p)
  | (.ok sc, p) => heap_scan_loop p sc (sc.item_id_data_cursor.length + 1)

/-- `PgClass` (spec §3): one row of the `pg_class` catalog.  The row
type lives in the missing `catalog/pg_class.rs`; fields per the spec. -/
structure PgClass where
  oid : Oid
  relname : String
  reltablespace : Oid
deriving DecidableEq

/-- `PgAttribute` (spec §3): one row of the `pg_attribute` catalog.  The
row type lives in the missing `catalog/pg_attribute.rs`; fields per the
spec. -/
structure PgAttribute where
  attrelid : Oid
  attname : String
  atttypid : Oid
  attlen : Nat
  attnum : Nat
  attnotnull : Bool
deriving DecidableEq

/-- `TupleDesc` (spec §3): the ordered attribute list of a relation. -/
structure TupleDesc where
  attrs : List PgAttribute
deriving DecidableEq

/-- Fixed-width serialization of a 32-bit integer, little-endian, as in
the source's `bincode` default configuration. -/
def serializeNat32 (n : Nat) : List Nat :=
  [n % 256, n / 256 % 256, n / 65536 % 256, n / 16777216 % 256]

/-- Length-prefixed serialization of a string: the character count
followed by the code points. -/
def serializeString (s : String) : List Nat :=
  s.length :: s.toList.map Char.toNat

/-- Parse a 32-bit little-endian integer, returning the remainder of
the input. -/
def deserializeNat32 (bs : List Nat) : Except DbError (Nat × List Nat) :=
  match bs with
  | a :: b :: c :: d :: rest =>
    .ok (a + 256 * b + 65536 * c + 16777216 * d, rest)
  | _ => .error (.CodecError "truncated integer")

/-- Parse a length-prefixed string, returning the remainder of the
input. -/
def deserializeString (bs : List Nat) : Except DbError (String × List Nat) :=
  match bs with
  | [] => .error (.CodecError "truncated string")
  | n :: rest =>
    if n ≤ rest.length then
      .ok (String.mk ((rest.take n).map Char.ofNat), rest.drop n)
    else .error (.CodecError "truncated string")

/-- Parse a single byte as a boolean. -/
def deserializeBool (bs : List Nat) : Except DbError (Bool × List Nat) :=
  match bs with
  | b :: rest => .ok (b ≠ 0, rest)
  | [] => .error (.CodecError "truncated bool")

/-- Modelled from the spec: serialization of a `PgClass` row as done by
`bincode::serialize` in `add_new_relation_tuple` (catalog/heap.rs:94),
field by field in declaration order. -/
def serializePgClass (pg : PgClass) : List Nat :=
  serializeNat32 pg.oid ++ serializeString pg.relname ++ serializeNat32 pg.reltablespace

/-- Modelled from the spec: the inverse of `serializePgClass`, as done
by `bincode::deserialize::<PgClass>` (catalog/mod.rs:63). -/
def deserializePgClass (bs : List Nat) : Except DbError PgClass :=
  match deserializeNat32 bs with
  | .error e => .error e
  | .ok (oid, bs1) =>
    match deserializeString bs1 with
    | .error e => .error e
    | .ok (relname, bs2) =>
      match deserializeNat32 bs2 with
      | .error e => .error e
      | .ok (reltablespace, bs3) =>
        match bs3 with
        | [] => .ok ⟨oid, relname, reltablespace⟩
        | _ => .error (.CodecError "trailing bytes")

/-- Modelled from the spec: serialization of a `PgAttribute` row as done
by `bincode::serialize` in `add_new_attribute_tuples`
(catalog/heap.rs:65), field by field in declaration order. -/
def serializePgAttribute (a : PgAttribute) : List Nat :=
  serializeNat32 a.attrelid ++ serializeString a.attname ++ serializeNat32 a.atttypid
    ++ serializeNat32 a.attlen ++ serializeNat32 a.attnum
    ++ [if a.attnotnull then 1 else 0]

/-- Modelled from the spec: the inverse of `serializePgAttribute`, as
done by `bincode::deserialize::<PgAttribute>` (catalog/mod.rs:39). -/
def deserializePgAttribute (bs : List Nat) : Except DbError PgAttribute :=
  match deserializeNat32 bs with
  | .error e => .error e
  | .ok (attrelid, bs1) =>
    match deserializeString bs1 with
    | .error e => .error e
    | .ok (attname, bs2) =>
      match deserializeNat32 bs2 with
      | .error e => .error e
      | .ok (atttypid, bs3) =>
        match deserializeNat32 bs3 with
        | .error e => .error e
        | .ok (attlen, bs4) =>
          match deserializeNat32 bs4 with
          | .error e => .error e
          | .ok (attnum, bs5) =>
            match deserializeBool bs5 with
            | .error e => .error e
            | .ok (attnotnull, bs6) =>
              match bs6 with
              | [] => .ok ⟨attrelid, attname, atttypid, attlen, attnum, attnotnull⟩
              | _ => .error (.CodecError "trailing bytes")

/-- A catalog row as stored on a heap page: default tuple header (empty
null bitmap, `HeapTupleHeader::default()` in catalog/heap.rs) and the
serialized row as the data bytes. -/
def pgClassTuple (pg : PgClass) : HeapTuple := ⟨[], serializePgClass pg⟩

/-- A `pg_attribute` row as stored on a heap page. -/
def pgAttributeTuple (a : PgAttribute) : HeapTuple := ⟨[], serializePgAttribute a⟩

/-- The `heap_iter` fold of `get_pg_class_relation` (catalog/mod.rs:60):
while no row has matched yet, deserialize each tuple and compare its
`relname`; once a match is recorded, later tuples are ignored (the
source closure does nothing when `pg_class_tuple.is_some()`).  The
tuple sequence is the one `heap_iter` yields: all tuples of `pg_class`
in page order then item-id order (`heap_iter` lives in a missing
version of `access/heap.rs` and is modelled from the spec). -/
def find_first_pg_class (tuples : List HeapTuple) (rel_name : String) :
    Except DbError (Option PgClass) :=
  match tuples with
  | [] => .ok none
  | t :: ts =>
    match deserializePgClass t.data with
    | .error e => .error e
    | .ok pg =>
      if pg.relname = rel_name then .ok (some pg)
      else find_first_pg_class ts rel_name

/-- `get_pg_class_relation` (catalog/mod.rs:51): scan `pg_class`, return
the first row whose `relname` matches, and fail with
`RelationNotFound` when the scan finds none. -/
def get_pg_class_relation (pg_class_tuples : List HeapTuple) (rel_name : String) :
    Except DbError PgClass :=
  match find_first_pg_class pg_class_tuples rel_name with
  | .error e => .error e
  | .ok (some pg) => .ok pg
  | .ok none => .error (.RelationNotFound rel_name)

/-- The `heap_iter` fold of `tuple_desc_from_relation`
(catalog/mod.rs:38): deserialize every `pg_attribute` tuple and keep, in
scan order, those whose `attrelid` matches; no reordering of any kind is
performed. -/
def collect_attributes (tuples : List HeapTuple) (oid : Oid) :
    Except DbError (List PgAttribute) :=
  match tuples with
  | [] => .ok []
  | t :: ts =>
    match deserializePgAttribute t.data with
    | .error e => .error e
    | .ok a =>
      match collect_attributes ts oid with
      | .error e => .error e
      | .ok rest => .ok (if a.attrelid = oid then a :: rest else rest)

/-- `tuple_desc_from_relation` (catalog/mod.rs:27): resolve the
relation's `pg_class` row, then collect the attributes of `pg_attribute`
whose `attrelid` equals its oid, in scan order. -/
def tuple_desc_from_relation (pg_class_tuples pg_attribute_tuples : List HeapTuple)
    (rel_name : String) : Except DbError TupleDesc :=
  match get_pg_class_relation pg_class_tuples rel_name with
  | .error e => .error e
  | .ok pg =>
    match collect_attributes pg_attribute_tuples pg.oid with
    | .error e => .error e
    | .ok attrs => .ok ⟨attrs⟩

/-! ## Observations used by the pin-discipline claim -/

/-- The refcount (pin count) of frame `b`, zero for ids outside the
pool (id 0 is invalid). -/
def refcountOf (pool : BufferPool) (b : Buffer) : Nat :=
  if b = 0 then 0
  else
    match pool.pages.get? (b - 1) with
    | some d => d.refcount
    | none => 0

/-- Well-formedness of a buffer pool, as established by
`BufferPool.new` and preserved by the operations: free and unpinned
(LRU) frames are not pinned, page-table frames and LRU frames are not on
the free list, the free list has no duplicates, and descriptor `id`
fields agree with their 1-based slot (§4.3 invariants). -/
def WF (pool : BufferPool) : Prop :=
  (∀ b ∈ pool.free_list, refcountOf pool b = 0) ∧
  (∀ b ∈ pool.lru, refcountOf pool b = 0) ∧
  (∀ e ∈ pool.page_table, e.2 ∉ pool.free_list) ∧
  (∀ b ∈ pool.lru, b ∉ pool.free_list) ∧
  pool.free_list.Nodup ∧
  pool.pages.map (fun d => d.id) = (List.range pool.pages.length).map (· + 1)

/-! ## Concrete test fixtures used to settle the claims -/

/-- A user relation used by the concrete scenarios. -/
def relT : RelationData := ⟨⟨1663, 16384, 20000⟩, "t"⟩

/-- A small tuple (three data bytes, no null attributes). -/
def tupA : HeapTuple := ⟨[], [1, 2, 3]⟩

/-- A second small tuple, distinct from `tupA`. -/
def tupB : HeapTuple := ⟨[], [9, 9, 8]⟩

/-- A page holding exactly one stored tuple, built by `page_add_item`
from a freshly initialized page. -/
def pageWith (t : HeapTuple) : Page :=
  match page_add_item freshPage t.encode with
  | .ok p => p
  | .error _ => freshPage

/-- Disk state for the C1 scenario: the file of `relT` has two pages,
holding `tupA` and `tupB` respectively. -/
def smgrC1 : StorageManager :=
  ⟨fun loc => if loc = relT.locator then [pageWith tupA, pageWith tupB] else []⟩

/-- A three-frame pool over the two-page file. -/
def poolC1 : BufferPool := BufferPool.new 3 smgrC1

/-- A valid but nearly full first page for the C2 scenario: its header
leaves `end_free_space = 18`, so after storing `tupA` only
`18 − 15 = 3` free bytes remain — no room for another item id. -/
def pageNearFull : Page :=
  match page_add_item (writePageHeader zeroPage ⟨6, 18, 0⟩) tupA.encode with
  | .ok p => p
  | .error _ => zeroPage

/-- Disk state for the C2 scenario: page 1 of `relT` is nearly full. -/
def smgrC2 : StorageManager :=
  ⟨fun loc => if loc = relT.locator then [pageNearFull] else []⟩

/-- A three-frame pool over the nearly full one-page file. -/
def poolC2 : BufferPool := BufferPool.new 3 smgrC2

/-- A corrupt page for the C3 scenario: its single item id points at the
two bytes `[9, 0]`, which fail tuple decoding (a declared 9-byte null
bitmap in a 1-byte remainder). -/
def pageBad : Page :=
  writeBytes (writeBytes (writePageHeader zeroPage ⟨10, 8190, 0⟩) 6
    (serializeItemId ⟨8190, 2⟩)) 8190 ([9, 0])

/-- Disk state for the C3 scenario. -/
def smgrC3 : StorageManager :=
  ⟨fun loc => if loc = relT.locator then [pageBad] else []⟩

/-- A three-frame pool over the corrupt one-page file. -/
def poolC3 : BufferPool := BufferPool.new 3 smgrC3

/-- The C3 execution: open a scan over the corrupt relation (this
fetches and pins page 1 into frame 3) and ask for the first tuple. -/
def c3run : (Except DbError (Option HeapTuple)) × BufferPool × HeapScanner :=
  match HeapScanner.new poolC3 relT with
  | (.ok sc, p1) => next_tuple p1 sc
  | (.error e, p1) => (.error e, p1, ⟨[], none⟩)

/-- A resident dirty frame for the C4 scenario: frame 1 holds page 1 of
`relT`, is unpinned, and is dirty. -/
def descC4 : BufferDesc := ⟨1, BufferTag.new 1 relT, 0, true, some relT, freshPage⟩

/-- A one-frame pool holding the dirty frame, over a one-page file (so
the storage write succeeds). -/
def poolC4 : BufferPool :=
  ⟨smgrC3, [1], [descC4], [], [(BufferTag.new 1 relT, 1)]⟩

/-- A pool whose single frame is pinned: the free list and the LRU are
both empty, so reclaiming a frame is impossible. -/
def poolC5 : BufferPool :=
  ⟨smgrC3, [], [⟨1, BufferTag.new 1 relT, 1, false, some relT, zeroPage⟩], [],
   [(BufferTag.new 1 relT, 1)]⟩

/-! ## C1 — heap_scan must yield the tuples of every page -/

/-- C1: the claim requires `heap_scan` to yield every tuple of pages
`1..size`.  On a relation whose file has two pages — page 1 storing
`tupA` and page 2 storing `tupB` (the last conjunct checks that page 2
really stores `tupB`) — the scan of the source, which only ever fetches
page 1 (`TODO` at access/heap.rs:74), returns exactly `[tupA]` and
omits `tupB`. -/
theorem C1_heap_scan_omits_second_page :
    smgrC1.size relT = 2 ∧
    (heap_scan poolC1 relT).1 = .ok [tupA] ∧
    tupA ≠ tupB ∧
    HeapTuple.decode (sliceToList (pageWith tupB)
      (PAGE_SIZE - tupB.encode.length) PAGE_SIZE) = .ok tupB := by
  decide

/-! ## C2 — insert-then-scan visibility -/

/-- C2: inserting `tupB` into a relation whose page 1 has only 3 free
bytes succeeds — the free-space policy extends the relation and places
the tuple on page 2 (the file then has 2 pages) — yet the subsequent
scan in the same pool returns only `[tupA]`: the freshly inserted tuple
is not visible, because the scanner never advances past page 1. -/
theorem C2_inserted_tuple_not_visible_to_scan :
    (heap_insert poolC2 relT tupB).1 = .ok () ∧
    (heap_insert poolC2 relT tupB).2.smgr.size relT = 2 ∧
    (heap_scan (heap_insert poolC2 relT tupB).2 relT).1 = .ok [tupA] ∧
    tupB ≠ tupA := by
  decide

/-! ## C3 — pin discipline -/

/-- C3 counterexample: the claim demands one `unpin_buffer` per
successful fetch on *every* exit path, including tuple-decode errors.
Opening a scan over `poolC3` pins page 1 into frame 3; `next_tuple`
then fails decoding the corrupt tuple and returns through `?` without
unpinning: afterwards frame 3 still has refcount 1 and the LRU is
empty, so the pin has leaked. -/
theorem C3_decode_error_leaks_pin :
    (HeapScanner.new poolC3 relT).1 = .ok ⟨[254, 31, 2, 0], some 3⟩ ∧
    c3run.1 = .error (.CodecError "truncated null bitmap") ∧
    c3run.2.1.pages.map (fun d => d.refcount) = [0, 0, 1] ∧
    c3run.2.1.lru = [] := by
  decide

/-! ## C4 — flush_buffer -/

/-- C4 counterexample: the claim says `flush_buffer` clears the frame's
`is_dirty` flag.  Flushing the dirty frame 1 of `poolC4` succeeds, yet
the frame's `is_dirty` flag is still `true` afterwards: the source
(buffer.rs:189) never touches the flag. -/
theorem C4_flush_leaves_is_dirty_set :
    (flush_buffer poolC4 1).1 = .ok () ∧
    (flush_buffer poolC4 1).2.pages.map (fun d => d.is_dirty) = [true] := by
  decide

/-- C4 as amended: for a resident frame with a bound relation,
`flush_buffer` hands the frame's page bytes to the storage manager at
`(rel, tag.page_number)` and otherwise only replaces the storage state:
the descriptors (hence `is_dirty` and `refcount`) and the LRU are left
unchanged, both when the write succeeds and when it fails — so a failed
flush leaves `is_dirty` set, and no flush ever clears it. -/
theorem C4_flush_buffer_behaviour (pool : BufferPool) (b : Buffer)
    (desc : BufferDesc) (rel : RelationData)
    (hdesc : get_buffer_descriptor pool b = .ok desc)
    (hrel : desc.rel = some rel) :
    flush_buffer pool b =
      (match pool.smgr.write rel desc.tag.page_number desc.page with
       | .ok s' => (.ok (), { pool with smgr := s' })
       | .error e => (.error e, pool)) ∧
    (flush_buffer pool b).2.pages = pool.pages ∧
    (flush_buffer pool b).2.lru = pool.lru := by
  have h1 : flush_buffer pool b =
      (match pool.smgr.write rel desc.tag.page_number desc.page with
       | .ok s' => (.ok (), { pool with smgr := s' })
       | .error e => (.error e, pool)) := by
    unfold flush_buffer
    rw [hdesc]
    dsimp only
    rw [hrel]
    dsimp only
    cases pool.smgr.write rel desc.tag.page_number desc.page <;> rfl
  refine ⟨h1, ?_, ?_⟩ <;>
    · rw [h1]
      cases pool.smgr.write rel desc.tag.page_number desc.page <;> rfl

/-- Witness for `C4_flush_buffer_behaviour` at the concrete `poolC4`. -/
theorem C4_flush_buffer_behaviour_witness :
    (flush_buffer poolC4 1).2.pages = poolC4.pages ∧
    (flush_buffer poolC4 1).2.lru = poolC4.lru :=
  (C4_flush_buffer_behaviour poolC4 1 descC4 relT rfl rfl).2

/-! ## C5 — victim selection -/

/-- C5 counterexample: the claim says an exhausted pool "fails with
NoFreeBuffer, reported upward to the caller rather than aborting the
process".  Fetching a page absent from the pinned-full `poolC5` instead
reaches the `.expect(...)` in `BufferPool::victim` (buffer.rs:247): the
process panics, and no `NoFreeBuffer` error is returned. -/
theorem C5_exhausted_pool_panics :
    (fetch_buffer poolC5 relT 2).1
      = .error (.Panic "replacer does not contain any page id to victim") ∧
    (fetch_buffer poolC5 relT 2).1 ≠ .error .NoFreeBuffer := by
  decide

/-- C5 as amended: victim selection takes the oldest id from the LRU of
unpinned frames, flushes the chosen frame first exactly when its
`is_dirty` flag is set, and removes the chosen frame's tag from the page
table; but when the LRU is empty (all frames pinned) the process panics
through `.expect` instead of failing with a `NoFreeBuffer` error. -/
theorem C5_victim_behaviour (pool : BufferPool) :
    (pool.lru = [] →
      victim pool
        = (.error (.Panic "replacer does not contain any page id to victim"), pool)) ∧
    (∀ v rest desc, pool.lru = v :: rest →
      get_buffer_descriptor pool v = .ok desc →
      (desc.is_dirty = false →
        victim pool
          = (.ok v, { pool with
              lru := rest,
              page_table := ptRemove pool.page_table desc.tag })) ∧
      (∀ rel s', desc.is_dirty = true → desc.rel = some rel →
        pool.smgr.write rel desc.tag.page_number desc.page = .ok s' →
        victim pool
          = (.ok v, { pool with
              lru := rest,
              smgr := s',
              page_table := ptRemove pool.page_table desc.tag }))) := by
  constructor
  · intro h
    unfold victim
    rw [h]
  · intro v rest desc hlru hdesc
    have hdesc' : get_buffer_descriptor { pool with lru := rest } v = .ok desc := hdesc
    constructor
    · intro hclean
      unfold victim
      rw [hlru]
      dsimp only
      rw [hdesc']
      dsimp only
      rw [hclean]
      exact rfl
    · intro rel s' hdirty hrel hwrite
      have hwrite' : ({ pool with lru := rest } : BufferPool).smgr.write
          rel desc.tag.page_number desc.page = .ok s' := hwrite
      have hflush : flush_buffer { pool with lru := rest } v
          = (.ok (), { pool with lru := rest, smgr := s' }) := by
        unfold flush_buffer
        rw [hdesc']
        dsimp only
        rw [hrel]
        dsimp only
        rw [hwrite']
      unfold victim
      rw [hlru]
      dsimp only
      rw [hdesc']
      dsimp only
      rw [hdirty]
      rw [show (if true = true then flush_buffer { pool with lru := rest } v
            else (.ok (), { pool with lru := rest }))
          = flush_buffer { pool with lru := rest } v from rfl]
      rw [hflush]

/-- Witness for `C5_victim_behaviour`: the empty-LRU conjunct applied to
the concrete exhausted pool `poolC5`. -/
theorem C5_victim_behaviour_witness :
    victim poolC5
      = (.error (.Panic "replacer does not contain any page id to victim"), poolC5) :=
  (C5_victim_behaviour poolC5).1 rfl

/-! ## C6 / C10 — unpin_buffer -/

/-- Inversion of a successful descriptor lookup: the buffer id is
nonzero and names a live slot of `pages`. -/
theorem get_buffer_descriptor_eq_ok {pool : BufferPool} {b : Buffer} {desc : BufferDesc}
    (h : get_buffer_descriptor pool b = .ok desc) :
    b ≠ 0 ∧ pool.pages.get? (b - 1) = some desc := by
  unfold get_buffer_descriptor at h
  by_cases hb : b = 0
  · rw [if_pos hb] at h
    exact absurd h (by simp)
  · rw [if_neg hb] at h
    refine ⟨hb, ?_⟩
    cases hg : pool.pages.get? (b - 1) with
    | none => rw [hg] at h; exact absurd h (by simp)
    | some d => rw [hg] at h; simp only [Except.ok.injEq] at h; rw [h]

/-- C6: for a pinned buffer (`refcount = r + 1`, hence absent from the
LRU), `unpin_buffer b was_dirtied` succeeds, decrements the refcount by
one, ORs `was_dirtied` into `is_dirty`, and inserts `b` into the LRU —
at the most-recently-used end — exactly when the refcount reaches
zero. -/
theorem C6_unpin_buffer_behaviour (pool : BufferPool) (b : Buffer) (d : Bool)
    (desc : BufferDesc) (r : Nat)
    (hdesc : get_buffer_descriptor pool b = .ok desc)
    (hrc : desc.refcount = r + 1)
    (hnl : b ∉ pool.lru) :
    (unpin_buffer pool b d).1 = .ok () ∧
    get_buffer_descriptor (unpin_buffer pool b d).2 b
      = .ok { desc with refcount := r, is_dirty := desc.is_dirty || d } ∧
    (unpin_buffer pool b d).2.lru = (if r = 0 then pool.lru ++ [b] else pool.lru) ∧
    (b ∈ (unpin_buffer pool b d).2.lru ↔ r = 0) ∧
    (r = 0 → (unpin_buffer pool b d).2.lru.getLast? = some b) := by
  obtain ⟨hb, hget⟩ := get_buffer_descriptor_eq_ok hdesc
  have hlt : b - 1 < pool.pages.length := (List.get?_eq_some.mp hget).1
  have key : unpin_buffer pool b d =
      (.ok (), if r = 0 then
        { set_buffer_descriptor pool b
            { desc with refcount := r, is_dirty := desc.is_dirty || d } with
          lru := pool.lru ++ [b] }
       else set_buffer_descriptor pool b
            { desc with refcount := r, is_dirty := desc.is_dirty || d }) := by
    unfold unpin_buffer
    rw [hdesc]
    dsimp only
    rw [hrc]
    dsimp only
    by_cases hr : r = 0
    · rw [if_pos hr, if_pos hr]
      exact rfl
    · rw [if_neg hr, if_neg hr]
  have hdesc' : ∀ p' : BufferPool,
      p'.pages = pool.pages.set (b - 1)
        { desc with refcount := r, is_dirty := desc.is_dirty || d } →
      get_buffer_descriptor p' b
        = .ok { desc with refcount := r, is_dirty := desc.is_dirty || d } := by
    intro p' hp
    unfold get_buffer_descriptor
    rw [if_neg hb, hp, List.get?_set_eq_of_lt _ hlt]
  refine ⟨by rw [key], ?_, ?_, ?_, ?_⟩
  · rw [key]
    by_cases hr : r = 0
    · rw [if_pos hr]
      exact hdesc' _ rfl
    · rw [if_neg hr]
      exact hdesc' _ rfl
  · rw [key]
    by_cases hr : r = 0
    · rw [if_pos hr, if_pos hr]
    · rw [if_neg hr, if_neg hr]
      rfl
  · rw [key]
    by_cases hr : r = 0
    · rw [if_pos hr]
      show b ∈ pool.lru ++ [b] ↔ r = 0
      simp [hr]
    · rw [if_neg hr]
      show b ∈ pool.lru ↔ r = 0
      simp [hnl, hr]
  · intro hr
    rw [key, if_pos hr]
    show (pool.lru ++ [b]).getLast? = some b
    exact List.getLast?_concat _

/-- Witness for `C6_unpin_buffer_behaviour`: unpinning the pinned frame
of the concrete pool `poolC5` pushes it onto the MRU end of the LRU. -/
theorem C6_unpin_buffer_behaviour_witness :
    (unpin_buffer poolC5 1 true).1 = .ok () ∧
    (unpin_buffer poolC5 1 true).2.lru = [1] :=
  have h := C6_unpin_buffer_behaviour poolC5 1 true
    ⟨1, BufferTag.new 1 relT, 1, false, some relT, zeroPage⟩ 0 rfl rfl (by decide)
  ⟨h.1, by rw [h.2.2.1]; rfl⟩

/-- C10: `unpin_buffer` has the unstated precondition `refcount ≥ 1`.
On a buffer whose refcount is zero the unsigned decrement underflows:
the call panics (a process abort, modelled by `DbError.Panic`) instead
of reporting a recoverable error, while with `refcount = r + 1` the
call returns `Ok`. -/
theorem C10_unpin_zero_refcount_is_panic (pool : BufferPool) (b : Buffer) (d : Bool)
    (desc : BufferDesc)
    (hdesc : get_buffer_descriptor pool b = .ok desc) :
    (desc.refcount = 0 →
      unpin_buffer pool b d
        = (.error (.Panic "attempt to subtract with overflow"), pool)) ∧
    (∀ r, desc.refcount = r + 1 → (unpin_buffer pool b d).1 = .ok ()) := by
  constructor
  · intro h0
    unfold unpin_buffer
    rw [hdesc]
    dsimp only
    rw [h0]
  · intro r hr
    unfold unpin_buffer
    rw [hdesc]
    dsimp only
    rw [hr]
    dsimp only
    by_cases h : r = 0
    · rw [if_pos h]
    · rw [if_neg h]

/-- Witness for `C10_unpin_zero_refcount_is_panic`: unpinning the
never-pinned frame 1 of the fresh pool `poolC1` panics. -/
theorem C10_unpin_zero_refcount_is_panic_witness :
    unpin_buffer poolC1 1 false
      = (.error (.Panic "attempt to subtract with overflow"), poolC1) :=
  (C10_unpin_zero_refcount_is_panic poolC1 1 false
    (BufferDesc.new 1 BufferTag.invalid) rfl).1 rfl

/-! ## C9 — item-id byte order -/

/-- A byte written by `writePageHeader` never lands at or beyond offset
`PAGE_HEADER_SIZE`. -/
theorem writePageHeader_apply_ge (p : Page) (h : PageHeader) (i : Nat)
    (hi : PAGE_HEADER_SIZE ≤ i) : writePageHeader p h i = p i := by
  have hi' : 6 ≤ i := hi
  unfold writePageHeader writeU16LE
  rw [if_neg (by omega), if_neg (by omega), if_neg (by omega), if_neg (by omega),
    if_neg (by omega), if_neg (by omega)]

/-- Reading inside the range written by `writeBytes` returns the
corresponding written byte. -/
theorem writeBytes_apply_in (p : Page) (off : Nat) (bs : List Nat) (i : Nat)
    (h1 : off ≤ i) (h2 : i < off + bs.length) :
    writeBytes p off bs i = bs.getD (i - off) 0 := by
  unfold writeBytes
  rw [if_pos ⟨h1, h2⟩]

/-- Inversion of a successful header decode: the §3 header invariant
holds and the fields are the three little-endian `u16`s of the page. -/
theorem PageHeader.decode_eq_ok {p : Page} {h : PageHeader}
    (hd : PageHeader.decode p = .ok h) :
    PAGE_HEADER_SIZE ≤ h.start_free_space ∧
    h.start_free_space ≤ h.end_free_space ∧ h.end_free_space ≤ PAGE_SIZE := by
  unfold PageHeader.decode at hd
  dsimp only at hd
  split at hd
  · rename_i hc
    simp only [Except.ok.injEq] at hd
    rw [← hd]
    exact hc
  · exact absurd hd (by simp)

/-- Inversion of a successful `page_add_item`: the free-space check
passed and the result page is the one with the tuple bytes, the new
item id, and the updated header written. -/
theorem page_add_item_eq_ok {p p' : Page} {tup : List Nat} {h : PageHeader}
    (hh : PageHeader.decode p = .ok h)
    (hadd : page_add_item p tup = .ok p') :
    tup.length + ITEM_ID_SIZE ≤ h.end_free_space - h.start_free_space ∧
    p' = writePageHeader
      (writeBytes (writeBytes p (h.end_free_space - tup.length) tup)
        h.start_free_space
        (serializeItemId ⟨h.end_free_space - tup.length, tup.length⟩))
      ⟨h.start_free_space + ITEM_ID_SIZE, h.end_free_space - tup.length, h.flags⟩ := by
  unfold page_add_item at hadd
  rw [hh] at hadd
  dsimp only at hadd
  split at hadd
  · rename_i hc
    simp only [Except.ok.injEq] at hadd
    exact ⟨hc, hadd.symm⟩
  · exact absurd hadd (by simp)

/-- C9 counterexample: the bytes `page_add_item` lays down for an item
id are little-endian.  Storing a 3-byte tuple on a fresh page writes the
item id `(offset 8189, length 3)` as `[253, 31, 3, 0]` (`8189 = 31·256 +
253`); reading those bytes back big-endian, as §4.2 would have it, does
not reproduce `(8189, 3)`, while the little-endian reading of §6
does. -/
theorem C9_item_id_bytes_are_little_endian :
    (page_add_item freshPage (HeapTuple.encode ⟨[], [9, 9]⟩)).isOk = true ∧
    sliceToList (pageWith ⟨[], [9, 9]⟩) PAGE_HEADER_SIZE
      (PAGE_HEADER_SIZE + ITEM_ID_SIZE) = [253, 31, 3, 0] ∧
    deserializeItemId [253, 31, 3, 0] = .ok ⟨8189, 3⟩ ∧
    deserializeItemIdBigEndian [253, 31, 3, 0] ≠ .ok ⟨8189, 3⟩ := by
  decide

/-- C9 as amended: item-id fields are serialized little-endian (as §6
states; §4.2's "big-endian" does not hold of the code), and under that
one byte order the scanner's read-back is faithful: after
`page_add_item` stores a tuple of length `L`, deserializing the item-id
bytes at the old `start_free_space` yields exactly the written pair
`(end_free_space − L, L)`. -/
theorem C9_item_id_readback_little_endian (p p' : Page) (h : PageHeader)
    (tup : List Nat)
    (hh : PageHeader.decode p = .ok h)
    (hadd : page_add_item p tup = .ok p') :
    deserializeItemId
      (sliceToList p' h.start_free_space (h.start_free_space + ITEM_ID_SIZE))
      = .ok ⟨h.end_free_space - tup.length, tup.length⟩ := by
  obtain ⟨hs6, hse, hep⟩ := PageHeader.decode_eq_ok hh
  obtain ⟨hroom, hp'⟩ := page_add_item_eq_ok hh hadd
  set s := h.start_free_space with hsdef
  set L := tup.length with hLdef
  set off := h.end_free_space - L with hoffdef
  have hoff_lt : off < 65536 := by
    have : PAGE_SIZE = 8192 := rfl
    omega
  have hL_lt : L < 65536 := by
    have : PAGE_SIZE = 8192 := rfl
    have : ITEM_ID_SIZE = 4 := rfl
    omega
  have hbyte : ∀ k, k < 4 →
      p' (s + k) = (serializeItemId ⟨off, L⟩).getD k 0 := by
    intro k hk
    rw [hp']
    rw [writePageHeader_apply_ge _ _ _ (by have : PAGE_HEADER_SIZE = 6 := rfl; omega)]
    rw [writeBytes_apply_in _ _ _ _ (by omega)
      (by show s + k < s + (serializeItemId ⟨off, L⟩).length
          have : (serializeItemId ⟨off, L⟩).length = 4 := rfl
          omega)]
    congr 1
    omega
  have hslice : sliceToList p' s (s + ITEM_ID_SIZE)
      = [p' (s + 0), p' (s + 1), p' (s + 2), p' (s + 3)] := by
    unfold sliceToList
    have h4 : s + ITEM_ID_SIZE - s = 4 := by
      have : ITEM_ID_SIZE = 4 := rfl
      omega
    rw [h4]
    rfl
  rw [hslice, hbyte 0 (by omega), hbyte 1 (by omega), hbyte 2 (by omega),
    hbyte 3 (by omega)]
  show deserializeItemId [off % 256, off / 256 % 256, L % 256, L / 256 % 256]
    = .ok ⟨off, L⟩
  have h1 : off % 256 + 256 * (off / 256 % 256) = off := by omega
  have h2 : L % 256 + 256 * (L / 256 % 256) = L := by omega
  show Except.ok (ItemId.mk (off % 256 + 256 * (off / 256 % 256))
    (L % 256 + 256 * (L / 256 % 256))) = Except.ok (ItemId.mk off L)
  rw [h1, h2]

/-- Witness for `C9_item_id_readback_little_endian` on a fresh page and
the 4-byte encoding of `tupA`. -/
theorem C9_item_id_readback_little_endian_witness :
    deserializeItemId (sliceToList (pageWith tupA) PAGE_HEADER_SIZE
      (PAGE_HEADER_SIZE + ITEM_ID_SIZE)) = .ok ⟨PAGE_SIZE - 4, 4⟩ :=
  C9_item_id_readback_little_endian freshPage (pageWith tupA)
    PageHeader.default tupA.encode (by decide) rfl

/-! ## C7 / C8 — catalog lookups -/

/-- Parsing a serialized 32-bit integer recovers it (when it fits in 32
bits) together with the remaining input. -/
theorem deserializeNat32_of_serialize (n : Nat) (rest : List Nat)
    (h : n < 4294967296) :
    deserializeNat32 (serializeNat32 n ++ rest) = .ok (n, rest) := by
  show Except.ok (n % 256 + 256 * (n / 256 % 256) + 65536 * (n / 65536 % 256)
      + 16777216 * (n / 16777216 % 256), rest) = Except.ok (n, rest)
  have : n % 256 + 256 * (n / 256 % 256) + 65536 * (n / 65536 % 256)
      + 16777216 * (n / 16777216 % 256) = n := by omega
  rw [this]

/-- Parsing a serialized string recovers it together with the remaining
input. -/
theorem deserializeString_of_serialize (s : String) (rest : List Nat) :
    deserializeString (serializeString s ++ rest) = .ok (s, rest) := by
  show deserializeString (s.length :: (s.toList.map Char.toNat ++ rest)) = .ok (s, rest)
  unfold deserializeString
  dsimp only
  have hlen : s.length = (s.toList.map Char.toNat).length := by
    rw [List.length_map]
    rfl
  rw [if_pos (by rw [hlen]; simp)]
  have htake : (s.toList.map Char.toNat ++ rest).take s.length
      = s.toList.map Char.toNat := by
    rw [hlen, List.take_left]
  have hdrop : (s.toList.map Char.toNat ++ rest).drop s.length = rest := by
    rw [hlen, List.drop_left]
  rw [htake, hdrop]
  have hmap : (s.toList.map Char.toNat).map Char.ofNat = s.toList := by
    rw [List.map_map]
    have : (Char.ofNat ∘ Char.toNat) = id := by
      funext c
      exact Char.ofNat_toNat c
    rw [this, List.map_id]
  rw [hmap]
  rfl

/-- Parsing a serialized `PgClass` row recovers it when its oids fit in
32 bits. -/
theorem deserializePgClass_of_serialize (pg : PgClass)
    (h1 : pg.oid < 4294967296) (h2 : pg.reltablespace < 4294967296) :
    deserializePgClass (serializePgClass pg) = .ok pg := by
  unfold serializePgClass deserializePgClass
  rw [List.append_assoc,
    deserializeNat32_of_serialize pg.oid _ h1]
  dsimp only
  rw [deserializeString_of_serialize pg.relname _]
  dsimp only
  rw [show serializeNat32 pg.reltablespace
      = serializeNat32 pg.reltablespace ++ [] from (List.append_nil _).symm,
    deserializeNat32_of_serialize pg.reltablespace _ h2]

/-- Parsing a serialized `PgAttribute` row recovers it when its numeric
fields fit in 32 bits. -/
theorem deserializePgAttribute_of_serialize (a : PgAttribute)
    (h1 : a.attrelid < 4294967296) (h2 : a.atttypid < 4294967296)
    (h3 : a.attlen < 4294967296) (h4 : a.attnum < 4294967296) :
    deserializePgAttribute (serializePgAttribute a) = .ok a := by
  unfold serializePgAttribute deserializePgAttribute
  simp only [List.append_assoc]
  rw [deserializeNat32_of_serialize a.attrelid _ h1]
  dsimp only
  rw [deserializeString_of_serialize a.attname _]
  dsimp only
  rw [deserializeNat32_of_serialize a.atttypid _ h2]
  dsimp only
  rw [deserializeNat32_of_serialize a.attlen _ h3]
  dsimp only
  rw [deserializeNat32_of_serialize a.attnum _ h4]
  dsimp only
  have hbool : deserializeBool [if a.attnotnull then 1 else 0]
      = .ok (a.attnotnull, []) := by
    cases a.attnotnull <;> rfl
  rw [hbool]

/-- On a `pg_class` heap holding serialized rows (the shape
`heap_create` writes), the catalog fold returns the first row whose
`relname` matches, scanning in order. -/
theorem find_first_pg_class_map (pgs : List PgClass) (name : String)
    (hb : ∀ pg ∈ pgs, pg.oid < 4294967296 ∧ pg.reltablespace < 4294967296) :
    find_first_pg_class (pgs.map pgClassTuple) name
      = .ok (pgs.find? (fun pg => pg.relname == name)) := by
  induction pgs with
  | nil => rfl
  | cons pg rest ih =>
    have hpg := hb pg (by simp)
    have hrest : ∀ q ∈ rest, q.oid < 4294967296 ∧ q.reltablespace < 4294967296 :=
      fun q hq => hb q (by simp [hq])
    unfold find_first_pg_class
    dsimp only [List.map]
    rw [show (pgClassTuple pg).data = serializePgClass pg from rfl]
    rw [deserializePgClass_of_serialize pg hpg.1 hpg.2]
    dsimp only
    by_cases h : pg.relname = name
    · rw [if_pos h, List.find?_cons_of_pos _ (by simp [h])]
    · rw [if_neg h, List.find?_cons_of_neg _ (by simp [h]), ih hrest]

/-- C7: on a `pg_class` heap of serialized rows with 32-bit oids,
`get_pg_class_relation` returns the first row (in scan order) whose
`relname` equals the requested name, and returns the
`RelationNotFound` error exactly when no row's `relname` matches. -/
theorem C7_get_pg_class_first_match (pgs : List PgClass) (name : String)
    (hb : ∀ pg ∈ pgs, pg.oid < 4294967296 ∧ pg.reltablespace < 4294967296) :
    get_pg_class_relation (pgs.map pgClassTuple) name
      = match pgs.find? (fun pg => pg.relname == name) with
        | some pg => .ok pg
        | none => .error (.RelationNotFound name) := by
  unfold get_pg_class_relation
  rw [find_first_pg_class_map pgs name hb]
  cases pgs.find? (fun pg => pg.relname == name) <;> rfl

/-- Witness for `C7_get_pg_class_first_match`: looking up `"t"` in a
two-row `pg_class` returns the matching second row, and looking up a
missing name reports `RelationNotFound`. -/
theorem C7_get_pg_class_first_match_witness :
    get_pg_class_relation ([⟨5, "x", 1663⟩, ⟨7, "t", 1663⟩].map pgClassTuple) "t"
      = .ok ⟨7, "t", 1663⟩ ∧
    get_pg_class_relation ([⟨5, "x", 1663⟩, ⟨7, "t", 1663⟩].map pgClassTuple) "z"
      = .error (.RelationNotFound "z") := by
  constructor
  · rw [C7_get_pg_class_first_match [⟨5, "x", 1663⟩, ⟨7, "t", 1663⟩] "t" (by decide)]
    rfl
  · rw [C7_get_pg_class_first_match [⟨5, "x", 1663⟩, ⟨7, "t", 1663⟩] "z" (by decide)]
    rfl

/-- On a `pg_attribute` heap holding serialized rows, the catalog fold
keeps exactly the rows with the requested `attrelid`, in scan order. -/
theorem collect_attributes_map (attrs : List PgAttribute) (oid : Nat)
    (ha : ∀ a ∈ attrs, a.attrelid < 4294967296 ∧ a.atttypid < 4294967296 ∧
      a.attlen < 4294967296 ∧ a.attnum < 4294967296) :
    collect_attributes (attrs.map pgAttributeTuple) oid
      = .ok (attrs.filter (fun a => a.attrelid == oid)) := by
  induction attrs with
  | nil => rfl
  | cons a rest ih =>
    obtain ⟨h1, h2, h3, h4⟩ := ha a (by simp)
    unfold collect_attributes
    dsimp only [List.map]
    rw [show (pgAttributeTuple a).data = serializePgAttribute a from rfl]
    rw [deserializePgAttribute_of_serialize a h1 h2 h3 h4]
    dsimp only
    rw [ih (fun q hq => ha q (by simp [hq]))]
    dsimp only
    rw [List.filter_cons]
    by_cases h : a.attrelid = oid
    · rw [if_pos h, if_pos (by simp [h])]
    · rw [if_neg h, if_neg (by simp [h])]

/-- C8 counterexample: the claim says the attribute list is sorted by
`attnum` ascending.  With `pg_attribute` holding the two attributes of
oid 7 in the order `attnum 2, attnum 1`, `tuple_desc_from_relation`
returns them in that scan order — not sorted by `attnum` (the source
never sorts, catalog/mod.rs:38). -/
theorem C8_attributes_not_sorted_by_attnum :
    tuple_desc_from_relation [pgClassTuple ⟨7, "t", 1663⟩]
      [pgAttributeTuple ⟨7, "b", 23, 4, 2, false⟩,
       pgAttributeTuple ⟨7, "a", 23, 4, 1, false⟩] "t"
      = .ok ⟨[⟨7, "b", 23, 4, 2, false⟩, ⟨7, "a", 23, 4, 1, false⟩]⟩ ∧
    ¬ List.Pairwise (fun x y => x.attnum ≤ y.attnum)
      ([⟨7, "b", 23, 4, 2, false⟩, ⟨7, "a", 23, 4, 1, false⟩] : List PgAttribute) := by
  constructor
  · decide
  · intro hp
    rw [List.pairwise_cons] at hp
    exact absurd (hp.1 ⟨7, "a", 23, 4, 1, false⟩ (by simp)) (by decide)

/-- C8 as amended: for a resolvable relation name, the returned
`TupleDesc` consists of exactly the `pg_attribute` rows with
`attrelid = oid`, in `pg_attribute` scan order; no sorting by `attnum`
is performed. -/
theorem C8_tuple_desc_in_scan_order (pgs : List PgClass)
    (attrs : List PgAttribute) (name : String)
    (hb : ∀ pg ∈ pgs, pg.oid < 4294967296 ∧ pg.reltablespace < 4294967296)
    (ha : ∀ a ∈ attrs, a.attrelid < 4294967296 ∧ a.atttypid < 4294967296 ∧
      a.attlen < 4294967296 ∧ a.attnum < 4294967296) :
    tuple_desc_from_relation (pgs.map pgClassTuple) (attrs.map pgAttributeTuple) name
      = match pgs.find? (fun pg => pg.relname == name) with
        | none => .error (.RelationNotFound name)
        | some pg => .ok ⟨attrs.filter (fun a => a.attrelid == pg.oid)⟩ := by
  unfold tuple_desc_from_relation get_pg_class_relation
  rw [find_first_pg_class_map pgs name hb]
  cases pgs.find? (fun pg => pg.relname == name) with
  | none => rfl
  | some pg =>
    dsimp only
    rw [collect_attributes_map attrs pg.oid ha]

/-- Witness for `C8_tuple_desc_in_scan_order`: the attributes of oid 7
come back filtered from a mixed `pg_attribute`, in scan order. -/
theorem C8_tuple_desc_in_scan_order_witness :
    tuple_desc_from_relation (([⟨7, "t", 1663⟩] : List PgClass).map pgClassTuple)
      (([⟨7, "b", 23, 4, 2, false⟩, ⟨9, "c", 23, 4, 1, false⟩,
         ⟨7, "a", 23, 4, 1, false⟩] : List PgAttribute).map pgAttributeTuple) "t"
      = .ok ⟨[⟨7, "b", 23, 4, 2, false⟩, ⟨7, "a", 23, 4, 1, false⟩]⟩ := by
  rw [C8_tuple_desc_in_scan_order [⟨7, "t", 1663⟩]
    [⟨7, "b", 23, 4, 2, false⟩, ⟨9, "c", 23, 4, 1, false⟩, ⟨7, "a", 23, 4, 1, false⟩]
    "t" (by decide) (by decide)]
  rfl

/-! ## C3 — pin discipline: supporting lemmas -/

/-- Membership in the LRU after removing an id. -/
theorem mem_lruRemove {l : List Buffer} {b x : Buffer} :
    x ∈ lruRemove l b ↔ x ∈ l ∧ x ≠ b := by
  induction l with
  | nil => simp [lruRemove]
  | cons y ys ih =>
    unfold lruRemove
    by_cases h : y = b
    · subst h
      rw [if_pos rfl, ih, List.mem_cons]
      constructor
      · rintro ⟨hx, hne⟩
        exact ⟨Or.inr hx, hne⟩
      · rintro ⟨(rfl | hx), hne⟩
        · exact absurd rfl hne
        · exact ⟨hx, hne⟩
    · rw [if_neg h, List.mem_cons, List.mem_cons, ih]
      constructor
      · rintro (rfl | ⟨hx, hne⟩)
        · exact ⟨Or.inl rfl, h⟩
        · exact ⟨Or.inr hx, hne⟩
      · rintro ⟨(rfl | hx), hne⟩
        · exact Or.inl rfl
        · exact Or.inr ⟨hx, hne⟩

/-- `refcountOf` after replacing the descriptor of a valid frame. -/
theorem refcountOf_set_buffer_descriptor (pool : BufferPool) (b : Nat)
    (d : BufferDesc) (x : Nat) (hb : b ≠ 0) (hlt : b - 1 < pool.pages.length) :
    refcountOf (set_buffer_descriptor pool b d) x
      = if x = b then d.refcount else refcountOf pool x := by
  unfold refcountOf set_buffer_descriptor
  by_cases hx : x = 0
  · subst hx
    have h0 : ¬ ((0 : Nat) = b) := by omega
    rw [if_pos rfl, if_neg h0, if_pos rfl]
  · rw [if_neg hx]
    by_cases hxb : x = b
    · subst hxb
      rw [if_pos rfl]
      dsimp only
      rw [List.get?_set_eq_of_lt _ hlt]
    · rw [if_neg hxb, if_neg hx]
      dsimp only
      have hne : b - 1 ≠ x - 1 := by omega
      rw [@List.get?_set_ne _ d (b - 1) (x - 1) pool.pages hne]

/-- `set_page` never changes a refcount. -/
theorem refcountOf_set_page (pool : BufferPool) (b : Nat) (pg : Page)
    (x : Nat) : refcountOf (set_page pool b pg) x = refcountOf pool x := by
  unfold set_page
  cases hg : pool.pages.get? (b - 1) with
  | none => rfl
  | some desc =>
    unfold refcountOf
    by_cases hx : x = 0
    · rw [if_pos hx, if_pos hx]
    · rw [if_neg hx, if_neg hx]
      dsimp only
      by_cases hxb : x - 1 = b - 1
      · rw [hxb, List.get?_set_eq_of_lt _ (List.get?_eq_some.mp hg).1, hg]
      · rw [@List.get?_set_ne _ _ (b - 1) (x - 1) pool.pages (fun h => hxb h.symm)]

/-- Replacing a descriptor by one with the same `id` preserves the
id/slot agreement map. -/
theorem map_id_set (l : List BufferDesc) (i : Nat) (d d' : BufferDesc)
    (hg : l.get? i = some d) (hid : d'.id = d.id) :
    (l.set i d').map (fun x => x.id) = l.map (fun x => x.id) := by
  apply List.ext_get?
  intro n
  rw [List.get?_map, List.get?_map]
  by_cases h : n = i
  · subst h
    rw [List.get?_set_eq_of_lt _ (List.get?_eq_some.mp hg).1, hg]
    simp [hid]
  · rw [@List.get?_set_ne _ d' i n l (fun he => h he.symm)]

/-- A descriptor of a well-formed pool carries its 1-based slot as
`id`. -/
theorem id_eq_of_map_id {pool : BufferPool}
    (hids : pool.pages.map (fun d => d.id)
      = (List.range pool.pages.length).map (· + 1))
    {i : Nat} {d : BufferDesc} (hg : pool.pages.get? i = some d) :
    d.id = i + 1 := by
  have hi : i < pool.pages.length := (List.get?_eq_some.mp hg).1
  have h1 : (pool.pages.map (fun x => x.id)).get? i = some d.id := by
    rw [List.get?_map, hg]
    rfl
  rw [hids, List.get?_map, List.get?_range hi] at h1
  have h2 : i + 1 = d.id := by simpa using h1
  exact h2.symm

/-- Entries surviving `ptRemove` were in the original page table. -/
theorem mem_of_mem_ptRemove {pt : List (BufferTag × Buffer)} {tag : BufferTag}
    {e : BufferTag × Buffer} (h : e ∈ ptRemove pt tag) : e ∈ pt := by
  induction pt with
  | nil => simp [ptRemove] at h
  | cons f rest ih =>
    unfold ptRemove at h
    obtain ⟨ft, fb⟩ := f
    by_cases hf : ft = tag
    · rw [if_pos hf] at h
      exact List.mem_cons_of_mem _ (ih h)
    · rw [if_neg hf] at h
      cases List.mem_cons.mp h with
      | inl he => exact he ▸ List.mem_cons_self _ _
      | inr hm => exact List.mem_cons_of_mem _ (ih hm)

/-- A successful page-table lookup names an entry of the table. -/
theorem ptLookup_mem {pt : List (BufferTag × Buffer)} {tag : BufferTag} {b : Buffer}
    (h : ptLookup pt tag = some b) : (tag, b) ∈ pt := by
  induction pt with
  | nil => simp [ptLookup] at h
  | cons f rest ih =>
    obtain ⟨ft, fb⟩ := f
    unfold ptLookup at h
    by_cases hf : ft = tag
    · rw [if_pos hf] at h
      simp only [Option.some.injEq] at h
      subst hf
      subst h
      exact List.mem_cons_self _ _
    · rw [if_neg hf] at h
      exact List.mem_cons_of_mem _ (ih h)

/-- Well-formedness transports along a state with the same bookkeeping
lists, the same refcounts, and the same id map. -/
theorem WF_congr {p p' : BufferPool} (hwf : WF p)
    (hfree : p'.free_list = p.free_list) (hlru : p'.lru = p.lru)
    (hpt : p'.page_table = p.page_table)
    (hrc : ∀ x, refcountOf p' x = refcountOf p x)
    (hids : p'.pages.map (fun d => d.id) = p.pages.map (fun d => d.id))
    (hlen : p'.pages.length = p.pages.length) : WF p' := by
  obtain ⟨h1, h2, h3, h4, h5, h6⟩ := hwf
  refine ⟨?_, ?_, ?_, ?_, ?_, ?_⟩
  · intro b hb
    rw [hrc]
    exact h1 b (hfree ▸ hb)
  · intro b hb
    rw [hrc]
    exact h2 b (hlru ▸ hb)
  · intro e he
    rw [hfree]
    exact h3 e (hpt ▸ he)
  · intro b hb
    rw [hfree]
    exact h4 b (hlru ▸ hb)
  · rw [hfree]
    exact h5
  · rw [hids, hlen]
    exact h6

/-- `set_page` preserves well-formedness. -/
theorem WF_set_page {pool : BufferPool} (hwf : WF pool) (b : Nat) (pg : Page) :
    WF (set_page pool b pg) := by
  unfold set_page
  cases hg : pool.pages.get? (b - 1) with
  | none => exact hwf
  | some desc =>
    refine WF_congr hwf rfl rfl rfl ?_ ?_ ?_
    · intro x
      have := refcountOf_set_page pool b pg x
      unfold set_page at this
      rw [hg] at this
      exact this
    · exact map_id_set _ _ _ _ hg rfl
    · simp


/-- The refcount observation agrees with the descriptor. -/
theorem refcountOf_eq_refcount {pool : BufferPool} {b : Nat} {desc : BufferDesc}
    (hb : b ≠ 0) (hget : pool.pages.get? (b - 1) = some desc) :
    refcountOf pool b = desc.refcount := by
  unfold refcountOf
  rw [if_neg hb, hget]

/-- Inversion of a successful `unpin_buffer`: the frame was pinned with
`refcount = r + 1`, and the successor pool carries the decremented,
dirty-ORed descriptor, with the id appended to the LRU exactly when `r`
reached zero. -/
theorem unpin_buffer_ok_eq {pool : BufferPool} {b : Nat} {d : Bool} {p' : BufferPool}
    (h : unpin_buffer pool b d = (.ok (), p')) :
    ∃ desc r, get_buffer_descriptor pool b = .ok desc ∧ desc.refcount = r + 1 ∧
      p' = (if r = 0 then
        { set_buffer_descriptor pool b
            { desc with is_dirty := desc.is_dirty || d, refcount := r } with
          lru := pool.lru ++ [b] }
       else set_buffer_descriptor pool b
            { desc with is_dirty := desc.is_dirty || d, refcount := r }) := by
  unfold unpin_buffer at h
  cases hg : get_buffer_descriptor pool b with
  | error e =>
    rw [hg] at h
    simp at h
  | ok desc =>
    rw [hg] at h
    dsimp only at h
    cases hr : desc.refcount with
    | zero =>
      rw [hr] at h
      simp at h
    | succ r =>
      rw [hr] at h
      dsimp only at h
      refine ⟨desc, r, rfl, hr, ?_⟩
      by_cases h0 : r = 0
      · rw [if_pos h0] at h
        rw [if_pos h0]
        simpa using h.symm
      · rw [if_neg h0] at h
        rw [if_neg h0]
        simpa using h.symm

/-- A successful unpin decrements exactly the unpinned frame's
refcount, which was at least one. -/
theorem unpin_buffer_ok_refcountOf {pool : BufferPool} {b : Nat} {d : Bool}
    {p' : BufferPool} (h : unpin_buffer pool b d = (.ok (), p')) :
    1 ≤ refcountOf pool b ∧
    ∀ x, refcountOf p' x
      = if x = b then refcountOf pool x - 1 else refcountOf pool x := by
  obtain ⟨desc, r, hg, hr, hp⟩ := unpin_buffer_ok_eq h
  obtain ⟨hb, hget⟩ := get_buffer_descriptor_eq_ok hg
  have hrc : refcountOf pool b = r + 1 := by rw [refcountOf_eq_refcount hb hget, hr]
  refine ⟨by omega, ?_⟩
  intro x
  have hset := refcountOf_set_buffer_descriptor pool b
    { desc with is_dirty := desc.is_dirty || d, refcount := r } x hb
    (List.get?_eq_some.mp hget).1
  have hstrip : refcountOf p' x
      = refcountOf (set_buffer_descriptor pool b
          { desc with is_dirty := desc.is_dirty || d, refcount := r }) x := by
    rw [hp]
    by_cases h0 : r = 0
    · rw [if_pos h0]
      rfl
    · rw [if_neg h0]
  rw [hstrip, hset]
  by_cases hxb : x = b
  · subst hxb
    rw [if_pos rfl, if_pos rfl, hrc]
    show r = r + 1 - 1
    omega
  · rw [if_neg hxb, if_neg hxb]

/-- A successful unpin preserves well-formedness. -/
theorem WF_unpin_buffer_ok {pool : BufferPool} {b : Nat} {d : Bool}
    {p' : BufferPool} (hwf : WF pool)
    (h : unpin_buffer pool b d = (.ok (), p')) : WF p' := by
  obtain ⟨desc, r, hg, hr, hp⟩ := unpin_buffer_ok_eq h
  obtain ⟨hb, hget⟩ := get_buffer_descriptor_eq_ok hg
  obtain ⟨h1, h2, h3, h4, h5, h6⟩ := hwf
  have hrc : refcountOf pool b = r + 1 := by rw [refcountOf_eq_refcount hb hget, hr]
  have hnotfree : b ∉ pool.free_list := by
    intro hmem
    have := h1 b hmem
    omega
  have hnotlru : b ∉ pool.lru := by
    intro hmem
    have := h2 b hmem
    omega
  have hdrop := (unpin_buffer_ok_refcountOf h).2
  have hfree' : p'.free_list = pool.free_list := by
    rw [hp]
    by_cases h0 : r = 0
    · rw [if_pos h0]
      rfl
    · rw [if_neg h0]
      rfl
  have hpt' : p'.page_table = pool.page_table := by
    rw [hp]
    by_cases h0 : r = 0
    · rw [if_pos h0]
      rfl
    · rw [if_neg h0]
      rfl
  have hlru' : p'.lru = (if r = 0 then pool.lru ++ [b] else pool.lru) := by
    rw [hp]
    by_cases h0 : r = 0
    · rw [if_pos h0, if_pos h0]
    · rw [if_neg h0, if_neg h0]
      rfl
  have hpages' : p'.pages = pool.pages.set (b - 1)
      { desc with is_dirty := desc.is_dirty || d, refcount := r } := by
    rw [hp]
    by_cases h0 : r = 0
    · rw [if_pos h0]
      rfl
    · rw [if_neg h0]
      rfl
  refine ⟨?_, ?_, ?_, ?_, ?_, ?_⟩
  · intro x hx
    rw [hfree'] at hx
    rw [hdrop x]
    have hxb : x ≠ b := fun he => hnotfree (he ▸ hx)
    rw [if_neg hxb]
    exact h1 x hx
  · intro x hx
    rw [hlru'] at hx
    rw [hdrop x]
    by_cases h0 : r = 0
    · rw [if_pos h0] at hx
      cases List.mem_append.mp hx with
      | inl hin =>
        have hxb : x ≠ b := fun he => hnotlru (he ▸ hin)
        rw [if_neg hxb]
        exact h2 x hin
      | inr hin =>
        have hxb : x = b := by simpa using hin
        rw [if_pos hxb, hxb, hrc]
        omega
    · rw [if_neg h0] at hx
      have hxb : x ≠ b := fun he => hnotlru (he ▸ hx)
      rw [if_neg hxb]
      exact h2 x hx
  · intro e he
    rw [hpt'] at he
    rw [hfree']
    exact h3 e he
  · intro x hx
    rw [hlru'] at hx
    rw [hfree']
    by_cases h0 : r = 0
    · rw [if_pos h0] at hx
      cases List.mem_append.mp hx with
      | inl hin => exact h4 x hin
      | inr hin =>
        have hxb : x = b := by simpa using hin
        exact hxb ▸ hnotfree
    · rw [if_neg h0] at hx
      exact h4 x hx
  · rw [hfree']
    exact h5
  · rw [hpages', map_id_set pool.pages (b - 1) desc
      { desc with is_dirty := desc.is_dirty || d, refcount := r } hget rfl]
    simp only [List.length_set]
    exact h6

/-- Refcounts only depend on the descriptor array. -/
theorem refcountOf_congr_pages {p q : BufferPool} (hpq : p.pages = q.pages)
    (x : Nat) : refcountOf p x = refcountOf q x := by
  unfold refcountOf
  rw [hpq]

/-- `flush_buffer` never changes the descriptors or the bookkeeping
lists, whatever its outcome. -/
theorem flush_buffer_state (q : BufferPool) (v : Nat) :
    (flush_buffer q v).2.pages = q.pages ∧
    (flush_buffer q v).2.free_list = q.free_list ∧
    (flush_buffer q v).2.lru = q.lru ∧
    (flush_buffer q v).2.page_table = q.page_table := by
  unfold flush_buffer
  cases get_buffer_descriptor q v with
  | error e => exact ⟨rfl, rfl, rfl, rfl⟩
  | ok desc =>
    dsimp only
    cases desc.rel with
    | none => exact ⟨rfl, rfl, rfl, rfl⟩
    | some rel =>
      dsimp only
      cases q.smgr.write rel desc.tag.page_number desc.page with
      | error e => exact ⟨rfl, rfl, rfl, rfl⟩
      | ok s' => exact ⟨rfl, rfl, rfl, rfl⟩

/-- `pin_buffer` on a live frame: bump the refcount and drop the
descriptor's id from the LRU. -/
theorem pin_buffer_eq {pool : BufferPool} {b : Nat} {desc : BufferDesc}
    (hget : pool.pages.get? (b - 1) = some desc) :
    pin_buffer pool b = { pool with
      pages := pool.pages.set (b - 1) { desc with refcount := desc.refcount + 1 },
      lru := lruRemove pool.lru desc.id } := by
  unfold pin_buffer
  rw [hget]

/-- A successful victim selection leaves every refcount unchanged,
hands back an unpinned frame (refcount zero, not on the free list), and
only shrinks the LRU and the page table. -/
theorem victim_ok {pool : BufferPool} {b : Nat} {p1 : BufferPool}
    (hwf : WF pool) (h : victim pool = (.ok b, p1)) :
    (∀ x, refcountOf p1 x = refcountOf pool x) ∧
    refcountOf pool b = 0 ∧
    p1.pages = pool.pages ∧
    p1.free_list = pool.free_list ∧
    b ∉ pool.free_list ∧
    (∀ x ∈ p1.lru, x ∈ pool.lru) ∧
    (∀ e ∈ p1.page_table, e ∈ pool.page_table) := by
  obtain ⟨h1, h2, h3, h4, h5, h6⟩ := hwf
  unfold victim at h
  cases hlru : pool.lru with
  | nil =>
    rw [hlru] at h
    simp at h
  | cons v rest =>
    rw [hlru] at h
    dsimp only at h
    cases hg : get_buffer_descriptor { pool with lru := rest } v with
    | error e =>
      rw [hg] at h
      simp at h
    | ok desc =>
      rw [hg] at h
      dsimp only at h
      cases hdirty : desc.is_dirty with
      | false =>
        rw [hdirty, if_neg (show ¬(false = true) by simp)] at h
        dsimp only at h
        simp only [Prod.mk.injEq, Except.ok.injEq] at h
        obtain ⟨hvb, hp1⟩ := h
        subst hvb
        refine ⟨?_, ?_, ?_, ?_, ?_, ?_, ?_⟩
        · intro x
          rw [← hp1]
          exact refcountOf_congr_pages rfl x
        · exact h2 v (hlru ▸ List.mem_cons_self _ _)
        · rw [← hp1]
        · rw [← hp1]
        · exact h4 v (hlru ▸ List.mem_cons_self _ _)
        · intro x hx
          rw [← hp1] at hx
          exact hlru ▸ List.mem_cons_of_mem _ hx
        · intro e he
          rw [← hp1] at he
          exact mem_of_mem_ptRemove he
      | true =>
        rw [hdirty, if_pos rfl] at h
        cases hfb : flush_buffer { pool with lru := rest } v with
        | mk u p2 =>
          rw [hfb] at h
          obtain ⟨hpg2, hfr2, hlr2, hpt2⟩ := flush_buffer_state { pool with lru := rest } v
          rw [hfb] at hpg2 hfr2 hlr2 hpt2
          cases u with
          | error e => simp at h
          | ok uu =>
            dsimp only at h
            simp only [Prod.mk.injEq, Except.ok.injEq] at h
            obtain ⟨hvb, hp1⟩ := h
            subst hvb
            refine ⟨?_, ?_, ?_, ?_, ?_, ?_, ?_⟩
            · intro x
              rw [← hp1]
              exact refcountOf_congr_pages hpg2 x
            · exact h2 v (hlru ▸ List.mem_cons_self _ _)
            · rw [← hp1]
              exact hpg2
            · rw [← hp1]
              exact hfr2
            · exact h4 v (hlru ▸ List.mem_cons_self _ _)
            · intro x hx
              rw [← hp1] at hx
              dsimp only at hx
              rw [hlr2] at hx
              exact hlru ▸ List.mem_cons_of_mem _ hx
            · intro e he
              rw [← hp1] at he
              dsimp only at he
              rw [hpt2] at he
              exact mem_of_mem_ptRemove he

/-- A frame obtained from `new_free_buffer` is unpinned and off the
free list, and the operation leaves refcounts and descriptors
unchanged while only shrinking the bookkeeping lists. -/
theorem new_free_buffer_ok {pool : BufferPool} {b : Nat} {p1 : BufferPool}
    (hwf : WF pool) (h : new_free_buffer pool = (.ok b, p1)) :
    (∀ x, refcountOf p1 x = refcountOf pool x) ∧
    refcountOf pool b = 0 ∧
    p1.pages = pool.pages ∧
    b ∉ p1.free_list ∧
    (∀ x ∈ p1.free_list, x ∈ pool.free_list) ∧
    p1.free_list.Nodup ∧
    (∀ x ∈ p1.lru, x ∈ pool.lru) ∧
    (∀ e ∈ p1.page_table, e ∈ pool.page_table) := by
  have hwf' := hwf
  obtain ⟨h1, h2, h3, h4, h5, h6⟩ := hwf'
  unfold new_free_buffer at h
  cases hfl : pool.free_list.getLast? with
  | some c =>
    rw [hfl] at h
    dsimp only at h
    simp only [Prod.mk.injEq, Except.ok.injEq] at h
    obtain ⟨hcb, hp1⟩ := h
    subst hcb
    have hbmem : c ∈ pool.free_list := by
      have hmem : c ∈ pool.free_list.getLast? := Option.mem_def.mpr hfl
      obtain ⟨hne, hb⟩ := List.mem_getLast?_eq_getLast hmem
      exact hb ▸ List.getLast_mem hne
    have hbdrop : c ∉ pool.free_list.dropLast := by
      have hmem : c ∈ pool.free_list.getLast? := Option.mem_def.mpr hfl
      obtain ⟨hne, hb⟩ := List.mem_getLast?_eq_getLast hmem
      have hdl : pool.free_list.dropLast ++ [pool.free_list.getLast hne]
          = pool.free_list := List.dropLast_append_getLast hne
      have hn5 := h5
      rw [← hdl] at hn5
      have hdisj := List.disjoint_of_nodup_append hn5
      intro hmm
      exact hdisj hmm (by rw [hb]; simp)
    refine ⟨?_, h1 c hbmem, ?_, ?_, ?_, ?_, ?_, ?_⟩
    · intro x
      rw [← hp1]
      exact refcountOf_congr_pages rfl x
    · rw [← hp1]
    · rw [← hp1]
      exact hbdrop
    · intro x hx
      rw [← hp1] at hx
      exact (List.dropLast_sublist pool.free_list).subset hx
    · rw [← hp1]
      exact h5.sublist (List.dropLast_sublist pool.free_list)
    · intro x hx
      rw [← hp1] at hx
      exact hx
    · intro e he
      rw [← hp1] at he
      exact he
  | none =>
    rw [hfl] at h
    obtain ⟨hv1, hv2, hv3, hv4, hv5, hv6, hv7⟩ := victim_ok hwf h
    refine ⟨hv1, hv2, hv3, ?_, ?_, ?_, hv6, hv7⟩
    · rw [hv4]
      exact hv5
    · intro x hx
      rw [hv4] at hx
      exact hx
    · rw [hv4]
      exact h5

/-- A successful `fetch_buffer` pins exactly the returned frame — every
other refcount is unchanged — and preserves well-formedness. -/
theorem fetch_buffer_ok {pool : BufferPool} {rel : RelationData} {n : Nat}
    {b : Nat} {p' : BufferPool} (hwf : WF pool)
    (h : fetch_buffer pool rel n = (.ok b, p')) :
    (∀ x, refcountOf p' x = if x = b then refcountOf pool x + 1 else refcountOf pool x)
      ∧ WF p' := by
  have hwf0 := hwf
  obtain ⟨h1, h2, h3, h4, h5, h6⟩ := hwf0
  unfold fetch_buffer at h
  dsimp only at h
  cases hpt : ptLookup pool.page_table (BufferTag.new n rel) with
  | some b0 =>
    rw [hpt] at h
    dsimp only at h
    cases hg : get_buffer_descriptor pool b0 with
    | error e =>
      rw [hg] at h
      simp at h
    | ok desc =>
      rw [hg] at h
      dsimp only at h
      simp only [Prod.mk.injEq, Except.ok.injEq] at h
      obtain ⟨hid_b, hp'⟩ := h
      obtain ⟨hb0, hget⟩ := get_buffer_descriptor_eq_ok hg
      have hid : desc.id = b0 := by
        rw [id_eq_of_map_id h6 hget]
        exact Nat.sub_add_cancel (Nat.one_le_iff_ne_zero.mpr hb0)
      have hbb0 : b0 = b := hid ▸ hid_b
      subst hbb0
      rw [pin_buffer_eq hget] at hp'
      have hlt : b0 - 1 < pool.pages.length := (List.get?_eq_some.mp hget).1
      have hrc : ∀ x, refcountOf p' x
          = if x = b0 then refcountOf pool x + 1 else refcountOf pool x := by
        intro x
        rw [← hp']
        rw [show refcountOf { pool with
            pages := pool.pages.set (b0 - 1) { desc with refcount := desc.refcount + 1 },
            lru := lruRemove pool.lru desc.id } x
          = refcountOf (set_buffer_descriptor pool b0
              { desc with refcount := desc.refcount + 1 }) x
          from refcountOf_congr_pages rfl x]
        rw [refcountOf_set_buffer_descriptor pool b0 _ x hb0 hlt]
        by_cases hxb : x = b0
        · subst hxb
          rw [if_pos rfl, if_pos rfl]
          rw [refcountOf_eq_refcount hb0 hget]
        · rw [if_neg hxb, if_neg hxb]
      have hfree' : p'.free_list = pool.free_list := by rw [← hp']
      have hlru' : p'.lru = lruRemove pool.lru b0 := by rw [← hp', hid]
      have hptbl' : p'.page_table = pool.page_table := by rw [← hp']
      have hpages' : p'.pages = pool.pages.set (b0 - 1)
          { desc with refcount := desc.refcount + 1 } := by rw [← hp']
      have hb0free : b0 ∉ pool.free_list := h3 _ (ptLookup_mem hpt)
      refine ⟨hrc, ?_, ?_, ?_, ?_, ?_, ?_⟩
      · intro x hx
        rw [hfree'] at hx
        rw [hrc x, if_neg (fun he : x = b0 => hb0free (he ▸ hx))]
        exact h1 x hx
      · intro x hx
        rw [hlru'] at hx
        obtain ⟨hxl, hxne⟩ := mem_lruRemove.mp hx
        rw [hrc x, if_neg hxne]
        exact h2 x hxl
      · intro e he
        rw [hptbl'] at he
        rw [hfree']
        exact h3 e he
      · intro x hx
        rw [hlru'] at hx
        rw [hfree']
        exact h4 x (mem_lruRemove.mp hx).1
      · rw [hfree']
        exact h5
      · rw [hpages', map_id_set pool.pages (b0 - 1) desc
          { desc with refcount := desc.refcount + 1 } hget rfl]
        simp only [List.length_set]
        exact h6
  | none =>
    rw [hpt] at h
    dsimp only at h
    cases hnf : new_free_buffer pool with
    | mk u p1 =>
      rw [hnf] at h
      cases u with
      | error e => simp at h
      | ok c =>
        dsimp only at h
        obtain ⟨hn1, hn2, hn3, hn4, hn5, hn6, hn7, hn8⟩ := new_free_buffer_ok hwf hnf
        cases hg : get_buffer_descriptor p1 c with
        | error e =>
          rw [hg] at h
          simp at h
        | ok desc =>
          rw [hg] at h
          dsimp only at h
          obtain ⟨hc0, hget1⟩ := get_buffer_descriptor_eq_ok hg
          have hlt1 : c - 1 < p1.pages.length := (List.get?_eq_some.mp hget1).1
          have hidc : desc.id = c := by
            have hgetp : pool.pages.get? (c - 1) = some desc := hn3 ▸ hget1
            rw [id_eq_of_map_id h6 hgetp]
            exact Nat.sub_add_cancel (Nat.one_le_iff_ne_zero.mpr hc0)
          cases hread : (set_buffer_descriptor p1 c
              { desc with tag := BufferTag.new n rel, refcount := 0, is_dirty := false, rel := some rel, page := zeroPage }).smgr.read rel n with
          | error e =>
            rw [hread] at h
            simp at h
          | ok pg =>
            rw [hread] at h
            dsimp only at h
            simp only [Prod.mk.injEq, Except.ok.injEq] at h
            obtain ⟨hcb, hp'⟩ := h
            subst hcb
            unfold set_buffer_descriptor at hp'
            dsimp only at hp'
            rw [List.set_set] at hp'
            unfold pin_buffer at hp'
            dsimp only at hp'
            rw [List.get?_set_eq_of_lt _ hlt1] at hp'
            dsimp only at hp'
            rw [List.set_set, hidc] at hp'
            simp only [Nat.zero_add] at hp'
            have hrc : ∀ x, refcountOf p' x
                = if x = c then refcountOf pool x + 1 else refcountOf pool x := by
              intro x
              rw [← hp']
              rw [show refcountOf
                  { smgr := p1.smgr,
                    lru := lruRemove p1.lru c,
                    pages := p1.pages.set (c - 1) { id := c, tag := BufferTag.new n rel, refcount := 1, is_dirty := false, rel := some rel, page := pg },
                    free_list := p1.free_list,
                    page_table := ptInsert p1.page_table (BufferTag.new n rel) c } x
                = refcountOf (set_buffer_descriptor p1 c
                    { id := c, tag := BufferTag.new n rel, refcount := 1, is_dirty := false, rel := some rel, page := pg }) x
                from refcountOf_congr_pages rfl x]
              rw [refcountOf_set_buffer_descriptor p1 c _ x hc0 hlt1]
              by_cases hxc : x = c
              · subst hxc
                rw [if_pos rfl, if_pos rfl, hn2]
              · rw [if_neg hxc, if_neg hxc]
                exact hn1 x
            have hfree' : p'.free_list = p1.free_list := by rw [← hp']
            have hlru' : p'.lru = lruRemove p1.lru c := by rw [← hp']
            have hptbl' : p'.page_table
                = ptInsert p1.page_table (BufferTag.new n rel) c := by rw [← hp']
            have hpages' : p'.pages = p1.pages.set (c - 1)
                { id := c, tag := BufferTag.new n rel, refcount := 1, is_dirty := false, rel := some rel, page := pg } := by
              rw [← hp']
            refine ⟨hrc, ?_, ?_, ?_, ?_, ?_, ?_⟩
            · intro x hx
              rw [hfree'] at hx
              rw [hrc x, if_neg (fun he : x = c => hn4 (he ▸ hx))]
              exact h1 x (hn5 x hx)
            · intro x hx
              rw [hlru'] at hx
              obtain ⟨hxl, hxne⟩ := mem_lruRemove.mp hx
              rw [hrc x, if_neg hxne]
              exact h2 x (hn7 x hxl)
            · intro e he
              rw [hptbl'] at he
              rw [hfree']
              unfold ptInsert at he
              cases List.mem_cons.mp he with
              | inl heq =>
                rw [heq]
                exact hn4
              | inr hmem =>
                intro hin
                exact h3 e (hn8 e (mem_of_mem_ptRemove hmem)) (hn5 e.2 hin)
            · intro x hx
              rw [hlru'] at hx
              rw [hfree']
              intro hin
              have hxp := hn7 x (mem_lruRemove.mp hx).1
              exact h4 x hxp (hn5 x hin)
            · rw [hfree']
              exact hn6
            · rw [hpages']
              have hgetp : pool.pages.get? (c - 1) = some desc := hn3 ▸ hget1
              rw [show p1.pages = pool.pages from hn3]
              rw [map_id_set pool.pages (c - 1) desc
                { id := c, tag := BufferTag.new n rel, refcount := 1, is_dirty := false, rel := some rel, page := pg } hgetp hidc.symm]
              simp only [List.length_set]
              exact h6

/-- A failing `unpin_buffer` (the panic paths) leaves the pool
untouched. -/
theorem unpin_buffer_error_state {pool : BufferPool} {b : Nat} {d : Bool}
    {e : DbError} (h : (unpin_buffer pool b d).1 = .error e) :
    (unpin_buffer pool b d).2 = pool := by
  unfold unpin_buffer at h ⊢
  cases hg : get_buffer_descriptor pool b with
  | error e2 => rfl
  | ok desc =>
    rw [hg] at h
    dsimp only at h ⊢
    cases hr : desc.refcount with
    | zero => rfl
    | succ r =>
      rw [hr] at h
      dsimp only at h
      by_cases h0 : r = 0
      · rw [if_pos h0] at h
        simp at h
      · rw [if_neg h0] at h
        simp at h

/-- `alloc_buffer` = extend (storage only) + fetch: it pins exactly the
returned frame and preserves well-formedness. -/
theorem alloc_buffer_ok {pool : BufferPool} {rel : RelationData} {b : Nat}
    {p' : BufferPool} (hwf : WF pool) (h : alloc_buffer pool rel = (.ok b, p')) :
    (∀ x, refcountOf p' x = if x = b then refcountOf pool x + 1 else refcountOf pool x)
      ∧ WF p' := by
  unfold alloc_buffer at h
  have hwf2 : WF { pool with smgr := (pool.smgr.extend rel).2 } := hwf
  obtain ⟨hb, hw⟩ := fetch_buffer_ok hwf2 h
  exact ⟨fun x => hb x, hw⟩

/-- The free-space page loop pins exactly the page it returns: every
candidate it fetches and rejects is unpinned again, so the net effect
on refcounts is a single pin of the result, and well-formedness is
preserved. -/
theorem fs_loop_ok (rel : RelationData) (needed : Nat) :
    ∀ (remaining i : Nat) (pool : BufferPool) {b : Nat} {p' : BufferPool},
    WF pool →
    get_page_with_free_space_loop rel needed i remaining pool = (.ok b, p') →
    (∀ x, refcountOf p' x = if x = b then refcountOf pool x + 1 else refcountOf pool x)
      ∧ WF p' := by
  intro remaining
  induction remaining with
  | zero =>
    intro i pool b p' hwf h
    unfold get_page_with_free_space_loop at h
    cases halloc : alloc_buffer pool rel with
    | mk u pa =>
      rw [halloc] at h
      cases u with
      | error e => simp at h
      | ok c =>
        dsimp only at h
        cases hgp : get_page pa c with
        | error e =>
          rw [hgp] at h
          simp at h
        | ok pg =>
          rw [hgp] at h
          dsimp only at h
          simp only [Prod.mk.injEq, Except.ok.injEq] at h
          obtain ⟨hcb, hp'⟩ := h
          subst hcb
          obtain ⟨ha1, ha2⟩ := alloc_buffer_ok hwf halloc
          constructor
          · intro x
            rw [← hp', refcountOf_set_page, ha1 x]
          · rw [← hp']
            exact WF_set_page ha2 _ _
  | succ rem ih =>
    intro i pool b p' hwf h
    unfold get_page_with_free_space_loop at h
    cases hfb : fetch_buffer pool rel i with
    | mk u pf =>
      rw [hfb] at h
      cases u with
      | error e => simp at h
      | ok c =>
        dsimp only at h
        cases hgp : get_page pf c with
        | error e =>
          rw [hgp] at h
          simp at h
        | ok pg =>
          rw [hgp] at h
          dsimp only at h
          cases hph : PageHeader.decode pg with
          | error e =>
            rw [hph] at h
            simp at h
          | ok hd =>
            rw [hph] at h
            dsimp only at h
            obtain ⟨hf1, hf2⟩ := fetch_buffer_ok hwf hfb
            by_cases hfit : needed + ITEM_ID_SIZE ≤ hd.end_free_space - hd.start_free_space
            · rw [if_pos hfit] at h
              simp only [Prod.mk.injEq, Except.ok.injEq] at h
              obtain ⟨hcb, hp'⟩ := h
              subst hcb
              rw [← hp']
              exact ⟨hf1, hf2⟩
            · rw [if_neg hfit] at h
              cases hup : unpin_buffer pf c false with
              | mk u2 p2 =>
                rw [hup] at h
                cases u2 with
                | error e => simp at h
                | ok uu =>
                  cases uu
                  dsimp only at h
                  have hupok : unpin_buffer pf c false = (.ok (), p2) := hup
                  obtain ⟨hge1, hdrop⟩ := unpin_buffer_ok_refcountOf hupok
                  have hwf2 : WF p2 := WF_unpin_buffer_ok hf2 hupok
                  have hcomp : ∀ x, refcountOf p2 x = refcountOf pool x := by
                    intro x
                    rw [hdrop x]
                    by_cases hxc : x = c
                    · subst hxc
                      rw [if_pos rfl, hf1 x, if_pos rfl]
                      omega
                    · rw [if_neg hxc, hf1 x, if_neg hxc]
                  obtain ⟨hl1, hl2⟩ := ih (i + 1) p2 hwf2 h
                  refine ⟨?_, hl2⟩
                  intro x
                  rw [hl1 x, hcomp x]

/-- A successful `heap_insert` releases every pin it takes: the one
frame pinned by the free-space policy is unpinned at the end, and the
candidate pages the policy rejected were already unpinned inside the
loop, so all refcounts return to their prior values. -/
theorem heap_insert_ok_refcountOf {pool : BufferPool} {rel : RelationData}
    {t : HeapTuple} (hwf : WF pool) (h : (heap_insert pool rel t).1 = .ok ()) :
    ∀ x, refcountOf (heap_insert pool rel t).2 x = refcountOf pool x := by
  unfold heap_insert at h ⊢
  cases hfs : get_page_with_free_space pool rel t.encode.length with
  | mk u p1 =>
    rw [hfs] at h
    cases u with
    | error e => simp at h
    | ok b =>
      dsimp only at h ⊢
      cases hgp : get_page p1 b with
      | error e =>
        rw [hgp] at h
        simp at h
      | ok page =>
        rw [hgp] at h
        dsimp only at h ⊢
        cases hadd : page_add_item page t.encode with
        | error e =>
          rw [hadd] at h
          simp at h
        | ok page' =>
          rw [hadd] at h
          dsimp only at h ⊢
          cases hup : unpin_buffer (set_page p1 b page') b true with
          | mk u2 p3 =>
            rw [hup] at h
            cases u2 with
            | error e => simp at h
            | ok uu =>
              cases uu
              dsimp only
              intro x
              have hupok : unpin_buffer (set_page p1 b page') b true = (.ok (), p3) := hup
              obtain ⟨hge, hdrop⟩ := unpin_buffer_ok_refcountOf hupok
              have hfs' : get_page_with_free_space_loop rel t.encode.length 1
                  (pool.smgr.size rel) pool = (.ok b, p1) := hfs
              obtain ⟨hl1, _⟩ := fs_loop_ok rel t.encode.length
                (pool.smgr.size rel) 1 pool hwf hfs'
              rw [hdrop x]
              by_cases hxb : x = b
              · subst hxb
                rw [if_pos rfl, refcountOf_set_page, hl1 x, if_pos rfl]
                omega
              · rw [if_neg hxb, refcountOf_set_page, hl1 x, if_neg hxb]

/-- On every error path of `HeapScanner::next_tuple` — a failing item-id
or tuple decode, a failing page fetch, an out-of-range slice, or a
failing unpin — the buffer pool is returned unchanged: in particular no
`unpin_buffer` takes effect, so the pin taken by `HeapScanner::new`
remains held. -/
theorem next_tuple_error_state (pool : BufferPool) (sc : HeapScanner) (e : DbError)
    (h : (next_tuple pool sc).1 = .error e) : (next_tuple pool sc).2.1 = pool := by
  unfold next_tuple at h ⊢
  cases hb : sc.buffer with
  | none =>
    rw [hb] at h
  | some b =>
    rw [hb] at h
    dsimp only at h ⊢
    cases hc : sc.item_id_data_cursor with
    | nil =>
      rw [hc] at h
      dsimp only at h ⊢
      cases hup : unpin_buffer pool b false with
      | mk u2 p2 =>
        rw [hup] at h
        cases u2 with
        | error e2 =>
          dsimp only
          have hu : (unpin_buffer pool b false).1 = .error e2 := by rw [hup]
          have h2 := unpin_buffer_error_state hu
          rw [hup] at h2
          exact h2
        | ok uu =>
          simp at h
    | cons c0 rest =>
      rw [hc] at h
      dsimp only at h ⊢
      cases hgp : get_page pool b with
      | error e2 => rfl
      | ok page =>
        rw [hgp] at h
        dsimp only at h ⊢
        cases hdes : deserializeItemId ((c0 :: rest).take ITEM_ID_SIZE
            ++ List.replicate (ITEM_ID_SIZE - ((c0 :: rest).take ITEM_ID_SIZE).length) 0) with
        | error e2 => rfl
        | ok item =>
          rw [hdes] at h
          dsimp only at h ⊢
          by_cases hin : item.offset + item.length ≤ PAGE_SIZE
          · rw [if_pos hin] at h ⊢
            cases hdec : HeapTuple.decode
                (sliceToList page item.offset (item.offset + item.length)) with
            | error e2 => rfl
            | ok tup =>
              rw [hdec] at h
          · rw [if_neg hin]

/-- At page exhaustion (empty cursor) `next_tuple` performs exactly one
`unpin_buffer` on the scanner's pinned frame and yields `none`. -/
theorem next_tuple_exhausted_unpins (pool : BufferPool) (sc : HeapScanner) (b : Nat)
    (hb : sc.buffer = some b) (hc : sc.item_id_data_cursor = [])
    (hok : (unpin_buffer pool b false).1 = .ok ()) :
    next_tuple pool sc = (.ok none, (unpin_buffer pool b false).2, sc) := by
  unfold next_tuple
  rw [hb]
  dsimp only
  rw [hc]
  dsimp only
  cases hup : unpin_buffer pool b false with
  | mk u p2 =>
    rw [hup] at hok
    cases u with
    | error e => simp at hok
    | ok uu =>
      cases uu
      rfl

/-- C3 as amended: in heap scans and `heap_insert`, every successful
fetch is matched by exactly one `unpin_buffer` on the normal exit
paths — a scan's page exhaustion unpins the scanned page exactly once,
and a successful `heap_insert` on a well-formed pool restores every
frame's refcount — but on the exit paths where `page_add_item` or tuple
decoding returns an error the pin is not released: `next_tuple` then
returns the pool unchanged, leaking the pin taken by
`HeapScanner::new`. -/
theorem C3_pin_discipline_normal_paths :
    (∀ (pool : BufferPool) (sc : HeapScanner) (e : DbError),
      (next_tuple pool sc).1 = .error e → (next_tuple pool sc).2.1 = pool) ∧
    (∀ (pool : BufferPool) (sc : HeapScanner) (b : Nat),
      sc.buffer = some b → sc.item_id_data_cursor = [] →
      (unpin_buffer pool b false).1 = .ok () →
      next_tuple pool sc = (.ok none, (unpin_buffer pool b false).2, sc)) ∧
    (∀ (pool : BufferPool) (rel : RelationData) (t : HeapTuple),
      WF pool → (heap_insert pool rel t).1 = .ok () →
      ∀ x, refcountOf (heap_insert pool rel t).2 x = refcountOf pool x) :=
  ⟨next_tuple_error_state,
   next_tuple_exhausted_unpins,
   fun _ _ _ hwf h => heap_insert_ok_refcountOf hwf h⟩

/-- Witness for `C3_pin_discipline_normal_paths` on the concrete pools:
the successful insert into `poolC2` leaves frame 3's refcount at its
prior value zero, and a scan over a one-tuple page unpins at
exhaustion. -/
theorem C3_pin_discipline_normal_paths_witness :
    refcountOf (heap_insert poolC2 relT tupB).2 3 = refcountOf poolC2 3 ∧
    next_tuple (HeapScanner.new poolC1 relT).2 ⟨[], some 3⟩
      = (.ok none, (unpin_buffer (HeapScanner.new poolC1 relT).2 3 false).2,
         ⟨[], some 3⟩) :=
  ⟨C3_pin_discipline_normal_paths.2.2 poolC2 relT tupB (by unfold WF; decide) (by decide) 3,
   C3_pin_discipline_normal_paths.2.1 (HeapScanner.new poolC1 relT).2 ⟨[], some 3⟩ 3
     rfl rfl (by decide)⟩

end Tinydb
